import Mathlib

/-!
Shallow embedding of the TinyFileManager simulated filesystem
(`code source/filesystem.c`) and verification of its specification claims.

The C program keeps one global `Filesystem` value holding an inode table,
per-inode directory records, a free-block bitmap, an open-file table, and it
performs stream I/O against a single backing image file.  We model that global
state as the structure `FS.Filesystem` below; the bytes of the image file's
data region are modelled as a total function from absolute byte offsets to
characters (a byte that was never written holds the zero character, which is
exactly how the C code pre-zeroes the data region at format time).

Conventions of the translation:
* C `int` values (inode indices, block numbers, sizes, cursors) are `Int`,
  with `-1` kept as the in-band sentinel exactly as in the source.
* Fixed arrays (`inodes[NUM_INODES]`, `blocks[NUM_BLOCKS]`, directory entries,
  the bitmap, the open-file table) are total functions from `Nat`; the C loops
  that scan them are translated to bounded scans over the same index ranges.
* C strings are `List Char`; a directory entry stores the (NUL-stripped)
  filename characters, the empty list being the cleared/zeroed name.
* `sizeof(Filesystem)`, the offset where data blocks start inside the image,
  is platform dependent; every function that forms image offsets takes it as
  an explicit parameter `B`.  No claim depends on its value.
* Wall-clock timestamp fields (`creation_time`, `modification_time`) are
  omitted: they are set from `time(NULL)` and no claim mentions them.
* Functions whose C counterparts can run into undefined behaviour or
  non-termination (the recursive `delete_directory`, the parent-chain loop in
  `write_file`) return `Option`, `none` marking the runs the C program does
  not complete; all other error paths return the C error sentinel together
  with the (unchanged) state.
-/

set_option maxRecDepth 100000

namespace FS

/-- `NUM_BLOCKS` from the source. -/
def NUM_BLOCKS : Nat := 1024

/-- `BLOCK_SIZE` from the source. -/
def BLOCK_SIZE : Nat := 512

/-- `NUM_INODES` from the source. -/
def NUM_INODES : Nat := 256

/-- `NUM_DIRECTORY_ENTRIES` from the source. -/
def NUM_DIRECTORY_ENTRIES : Nat := 256

/-- `MAX_FILE_OPEN` from the source. -/
def MAX_FILE_OPEN : Nat := 64

/-- `MAX_FILE_NAME` from the source. -/
def MAX_FILE_NAME : Nat := 255

/-- The zero byte, used by the C code both as string terminator and as the
content of never-written image bytes. -/
def nulChar : Char := Char.ofNat 0

/-- `struct inode` (timestamps omitted, see the file header). -/
structure Inode where
  id : Int
  type : Int
  size : Int
  permissions : List Char
  blocks : Nat → Int
  link_count : Int
  inode_rep_parent : Int

/-- `struct directory_entry`: a filename and the inode it references. -/
structure DirEntry where
  filename : List Char
  inode_index : Int
deriving DecidableEq

/-- `struct directory`: 256 entries, modelled as a total function. -/
abbrev Directory : Type := Nat → DirEntry

/-- One slot of the open-file table (`struct OpenFile`). -/
structure OpenFile where
  inode : Int
  tete_lecture : Int
deriving DecidableEq

/-- The global `Filesystem` state (file handles, log and `current_dir` are
omitted: the first three are host-I/O plumbing and `current_dir` is only used
by the interactive shell, which is out of scope). -/
structure Filesystem where
  inodes : Nat → Inode
  directories : Nat → Directory
  free_blocks : Nat → Nat
  opened_file : Nat → OpenFile
  image : Nat → Char

/-- Bounded upward scan: first index `i₀ ≤ i < i₀ + fuel` satisfying `p`.
Translation device for the C `for`/`while` loops that scan a fixed array. -/
def scanFirst (p : Nat → Bool) : Nat → Nat → Option Nat
  | _, 0 => none
  | i, fuel + 1 => if p i then some i else scanFirst p (i + 1) fuel

theorem scanFirst_pos {p : Nat → Bool} {i fuel j : Nat}
    (h : scanFirst p i fuel = some j) : p j = true ∧ i ≤ j ∧ j < i + fuel := by
  induction fuel generalizing i with
  | zero => simp [scanFirst] at h
  | succ n ih =>
    rw [scanFirst] at h
    by_cases hp : p i
    · simp [hp] at h; subst h; exact ⟨hp, le_refl _, by omega⟩
    · simp [hp] at h
      obtain ⟨h1, h2, h3⟩ := ih h
      exact ⟨h1, by omega, by omega⟩

theorem scanFirst_isSome {p : Nat → Bool} {i fuel j : Nat}
    (hj : i ≤ j) (hlt : j < i + fuel) (hp : p j = true) :
    (scanFirst p i fuel).isSome := by
  induction fuel generalizing i with
  | zero => omega
  | succ n ih =>
    rw [scanFirst]
    by_cases hpi : p i
    · simp [hpi]
    · have hij : i ≠ j := fun h => by subst h; rw [hp] at hpi; exact hpi rfl
      simp [hpi]
      exact ih (by omega) (by omega)

/-- `allocate_block`: first bitmap index holding 0 is flipped to 1 and
returned; `-1` on exhaustion, bitmap untouched. -/
def allocate_block (st : Filesystem) : Int × Filesystem :=
  match scanFirst (fun i => st.free_blocks i == 0) 0 NUM_BLOCKS with
  | some i => ((i : Int), { st with free_blocks := Function.update st.free_blocks i 1 })
  | none => (-1, st)

/-- `free_block`: flips the bitmap entry back to 0 after a bounds check;
out-of-range indices are reported and ignored. -/
def free_block (st : Filesystem) (block_index : Int) : Filesystem :=
  if 0 ≤ block_index ∧ block_index < (NUM_BLOCKS : Int) then
    { st with free_blocks := Function.update st.free_blocks block_index.toNat 0 }
  else
    st

/-- `rechInode`: scan the 256 directory entries in order; the loop keeps
scanning while its accumulator is still `-1`, so the result is the
`inode_index` of the first entry whose stored name equals `filename` and whose
`inode_index` differs from `-1` (a name match on a cleared entry re-assigns
`-1` and the loop continues), or `-1`. -/
def rechInode (filename : List Char) (dir : Directory) : Int :=
  match scanFirst
      (fun i => (dir i).filename == filename && (dir i).inode_index != -1)
      0 NUM_DIRECTORY_ENTRIES with
  | some i => (dir i).inode_index
  | none => -1

/-- `rechEntree`: index of the first free entry (`inode_index == -1`) of the
directory record at `dir_inode`, or `-1`. -/
def rechEntree (st : Filesystem) (dir_inode : Nat) : Int :=
  match scanFirst (fun i => (st.directories dir_inode i).inode_index == -1)
      0 NUM_DIRECTORY_ENTRIES with
  | some i => (i : Int)
  | none => -1

/-- The scan performed by `strchr` on the three-character permission field:
the field is NUL-padded by `strncpy`/`memset` and, in the C struct, the byte
following it is an alignment padding byte of the zero-initialised global, so
the scan sees the field's characters up to the first NUL. -/
def permScan (perms : List Char) : List Char :=
  perms.takeWhile (fun c => c ≠ nulChar)

/-- `has_permission`: bounds-check the inode index, then test whether the
permission letter occurs anywhere in the permission field via `strchr` (the
source does not look at the letter's position). -/
def has_permission (st : Filesystem) (inode_index : Int) (perm : Char) : Bool :=
  if inode_index < 0 ∨ (NUM_INODES : Int) ≤ inode_index then false
  else
    let inode := st.inodes inode_index.toNat
    if perm = 'r' then (permScan inode.permissions).contains 'r'
    else if perm = 'w' then (permScan inode.permissions).contains 'w'
    else if perm = 'x' then (permScan inode.permissions).contains 'x'
    else false

/-- Update one inode of the table. -/
def setInode (st : Filesystem) (i : Nat) (v : Inode) : Filesystem :=
  { st with inodes := Function.update st.inodes i v }

/-- Update one directory record of the table. -/
def setDir (st : Filesystem) (i : Nat) (v : Directory) : Filesystem :=
  { st with directories := Function.update st.directories i v }

/-- Write one directory entry (name truncated to `MAX_FILE_NAME` bytes, as
`strncpy` does). -/
def setDirEntry (st : Filesystem) (d : Nat) (slot : Nat) (name : List Char)
    (ino : Int) : Filesystem :=
  setDir st d (Function.update (st.directories d) slot
    ⟨name.take MAX_FILE_NAME, ino⟩)

/-- `change_permissions`: resolve the name in the directory record, overwrite
the three permission bytes (`strncpy(node->permissions, newPerms, 3)`). -/
def change_permissions (st : Filesystem) (filename : List Char)
    (newPerms : List Char) (dir_inode : Nat) : Int × Filesystem :=
  let inode_index := rechInode filename (st.directories dir_inode)
  if inode_index = -1 then (-1, st)
  else
    let i := inode_index.toNat
    (0, setInode st i { st.inodes i with permissions := newPerms.take 3 })

/-- `create_file`: check write permission on the parent, reject duplicate
names, reserve the first free inode (`size == -1` becomes 0), allocate one
block, claim a directory slot; on failure after the reservation roll the
inode (and block) back exactly as the source does. -/
def create_file (st : Filesystem) (filename : List Char)
    (permissions : List Char) (dir_inode : Nat) : Int × Filesystem :=
  if ¬ has_permission st (dir_inode : Int) 'w' then (-1, st)
  else if rechInode filename (st.directories dir_inode) ≠ -1 then (-1, st)
  else
    match scanFirst (fun i => (st.inodes i).size == -1) 0 NUM_INODES with
    | none => (-1, st)
    | some inode_index =>
      let st1 := setInode st inode_index
        { st.inodes inode_index with size := 0 }
      let (block, st2) := allocate_block st1
      if block = -1 then
        (-1, setInode st2 inode_index
          { st2.inodes inode_index with size := -1 })
      else
        let index_rep := rechEntree st2 dir_inode
        if index_rep = -1 then
          let st3 := free_block st2 block
          (-1, setInode st3 inode_index
            { st3.inodes inode_index with size := -1 })
        else
          let st3 := setDirEntry st2 dir_inode index_rep.toNat filename
            (inode_index : Int)
          let st4 := setInode st3 inode_index
            { st3.inodes inode_index with
                blocks := Function.update (st3.inodes inode_index).blocks 0 block
                type := 1
                inode_rep_parent := (dir_inode : Int)
                permissions := permissions.take 3 }
          ((inode_index : Int), st4)

/-- Clear every matching `(inode, name)` entry scan of `delete_file`: the C
loop walks the entries until it has cleared the one matching both the inode
index and the name (such an entry exists whenever `rechInode` found the
inode, which is the only context in which the loop runs); we scan the 256
entries. -/
def clearMatchingEntry (st : Filesystem) (d : Nat) (name : List Char)
    (ino : Int) : Filesystem :=
  match scanFirst
      (fun i => (st.directories d i).inode_index == ino &&
        (st.directories d i).filename == name)
      0 NUM_DIRECTORY_ENTRIES with
  | some i => setDir st d (Function.update (st.directories d) i ⟨[], -1⟩)
  | none => st

/-- `delete_file`: look the name up, require type file (1) or symlink (2),
free every allocated block of the inode (setting the block-list slot to
`-1`), reset the inode to the free template, and clear the one directory
entry matching both the inode and the name.  Note that the source performs
the reset unconditionally: it does not consult `link_count`. -/
def delete_file (st : Filesystem) (filename : List Char) (dir_inode : Nat) :
    Int × Filesystem :=
  let inode_index := rechInode filename (st.directories dir_inode)
  if inode_index = -1 then (-1, st)
  else if (st.inodes inode_index.toNat).type ≠ 1 ∧
      (st.inodes inode_index.toNat).type ≠ 2 then (-1, st)
  else
    let i := inode_index.toNat
    -- the loop freeing blocks[k] for every k with blocks[k] != -1
    let st1 : Filesystem := (List.range NUM_BLOCKS).foldl
      (fun s k =>
        if (st.inodes i).blocks k ≠ -1 then free_block s ((st.inodes i).blocks k)
        else s) st
    let st2 := setInode st1 i
      { st1.inodes i with
          type := -1
          size := -1
          blocks := fun _ => -1
          link_count := 0
          inode_rep_parent := -1 }
    (0, clearMatchingEntry st2 dir_inode filename inode_index)

/-- `create_directory`: reserve the first free inode, reject duplicate
names, claim a directory slot in the parent, initialise the inode
(type 0, size 0, permissions "rwx", link_count 1, no blocks), clear the new
directory record and add the entry to the parent.  The source performs no
permission check on the parent. -/
def create_directory (st : Filesystem) (dirname : List Char) (inode_dir : Nat) :
    Int × Filesystem :=
  match scanFirst (fun i => (st.inodes i).size == -1) 0 NUM_INODES with
  | none => (-1, st)
  | some inode_index =>
    if rechInode dirname (st.directories inode_dir) ≠ -1 then (-1, st)
    else
      let index := rechEntree st inode_dir
      if index = -1 then (-1, st)
      else
        let st1 := setInode st inode_index
          { st.inodes inode_index with
              size := 0
              type := 0
              inode_rep_parent := (inode_dir : Int)
              permissions := ['r', 'w', 'x']
              link_count := 1
              blocks := fun _ => -1 }
        let st2 := setDir st1 inode_index (fun _ => ⟨[], -1⟩)
        ((inode_index : Int),
          setDirEntry st2 inode_dir index.toNat dirname (inode_index : Int))

/-- Clear the parent's entry matching both the inode and the name (the
entry-removal loop shared by `delete_directory`, `move_directory` and
`move_file`). -/
def removeParentEntry (st : Filesystem) (parent : Nat) (name : List Char)
    (ino : Int) : Filesystem :=
  clearMatchingEntry st parent name ino

/-- The body of `delete_directory`, with the recursive call abstracted as
`rec`: resolve the name, require type directory and write permission on the
target itself, recursively delete every child (ignoring the recursive
calls' return values, as the source does, and rereading the live directory
record after every deletion), remove the entry from the parent and reset
the target's inode. -/
def deleteDirBody
    (rec : Filesystem → List Char → Nat → Option (Int × Filesystem))
    (st : Filesystem) (dirname : List Char) (parent_dir : Nat) :
    Option (Int × Filesystem) :=
  let dir_inode := rechInode dirname (st.directories parent_dir)
  if dir_inode = -1 then some (-1, st)
  else if (st.inodes dir_inode.toNat).type ≠ 0 then some (-1, st)
  else if ¬ has_permission st dir_inode 'w' then some (-1, st)
  else
    let d := dir_inode.toNat
    let children := (List.range NUM_DIRECTORY_ENTRIES).foldl
      (fun acc i =>
        match acc with
        | none => none
        | some s =>
          let e := s.directories d i
          if e.inode_index ≠ -1 then
            let childType := (s.inodes e.inode_index.toNat).type
            if childType = 0 then
              match rec s e.filename d with
              | none => none
              | some (_, s1) => some s1
            else if childType = 1 ∨ childType = 2 then
              some (delete_file s e.filename d).2
            else some s
          else some s)
      (some st)
    match children with
    | none => none
    | some st1 =>
      let st2 := removeParentEntry st1 parent_dir dirname dir_inode
      let st3 : Filesystem := (List.range NUM_BLOCKS).foldl
        (fun s k =>
          if (st2.inodes d).blocks k ≠ -1 then
            free_block s ((st2.inodes d).blocks k)
          else s) st2
      let st4 := setInode st3 d
        { st3.inodes d with
            size := -1
            type := -1
            inode_rep_parent := -1
            link_count := 0
            blocks := fun _ => -1 }
      some (0, st4)

/-- `delete_directory`, the C recursion driven by explicit fuel; `none`
marks runs the C program does not complete. -/
def delete_directory : Nat → Filesystem → List Char → Nat →
    Option (Int × Filesystem)
  | 0, _, _, _ => none
  | fuel + 1, st, dirname, parent_dir =>
    deleteDirBody (delete_directory fuel) st dirname parent_dir

/-- `create_hard_link`: resolve the target name in the source directory,
reject a clash in the target directory, claim a free entry there, write
`(link_name, target inode)` into it and increment the target's
`link_count`. -/
def create_hard_link (st : Filesystem) (link_name : List Char)
    (filename : List Char) (inode_dir_source : Nat) (inode_dir_target : Nat) :
    Int × Filesystem :=
  let inode_index := rechInode filename (st.directories inode_dir_source)
  if inode_index = -1 then (-1, st)
  else if rechInode link_name (st.directories inode_dir_target) ≠ -1 then
    (-1, st)
  else
    let index := rechEntree st inode_dir_target
    if index = -1 then (-1, st)
    else
      let st1 := setDirEntry st inode_dir_target index.toNat link_name
        inode_index
      let i := inode_index.toNat
      (0, setInode st1 i
        { st1.inodes i with link_count := (st1.inodes i).link_count + 1 })

/-- `move_file`: require the file to exist, write permission on both parent
directories and no clash in the target; insert the entry into the target,
then clear the matching entry of the source.  The source function is `void`;
we return 0 on the mutating path and `-1` on every diagnostic path. -/
def move_file (st : Filesystem) (filename : List Char)
    (inode_dir_source : Nat) (inode_dir_target : Nat) : Int × Filesystem :=
  let inode_index := rechInode filename (st.directories inode_dir_source)
  if inode_index = -1 then (-1, st)
  else if ¬ has_permission st (inode_dir_source : Int) 'w' then (-1, st)
  else if rechInode filename (st.directories inode_dir_target) ≠ -1 then
    (-1, st)
  else if ¬ has_permission st (inode_dir_target : Int) 'w' then (-1, st)
  else
    let index := rechEntree st inode_dir_target
    if index = -1 then (-1, st)
    else
      let st1 := setDirEntry st inode_dir_target index.toNat filename
        inode_index
      (0, removeParentEntry st1 inode_dir_source filename inode_index)

/-- `strtok(path, "/")` iterated: the non-empty components of the path
(leading, trailing and repeated slashes produce no token). -/
def tokenizePath (p : List Char) : List (List Char) :=
  (p.splitOn '/').filter (fun t => t ≠ [])

/-- The component loop of `get_inode_from_path`, exactly as the source walks
it: `.` keeps the inode, `..` replaces it by `inode_rep_parent`, any other
token is looked up via `rechInode` and a miss aborts with `-1`. -/
def resolveLoop (st : Filesystem) : List (List Char) → Int → Int
  | [], inode => inode
  | t :: ts, inode =>
    if t = ['.'] then resolveLoop st ts inode
    else if t = ['.', '.'] then
      resolveLoop st ts (st.inodes inode.toNat).inode_rep_parent
    else
      let foundInode := rechInode t (st.directories inode.toNat)
      if foundInode = -1 then -1
      else resolveLoop st ts foundInode

/-- `get_inode_from_path`: start from inode 0 for an absolute path and from
`current_dir` otherwise, copy the path into a 1024-byte buffer (`strncpy`
keeps at most 1023 characters), tokenize on `/` and run the component
loop. -/
def get_inode_from_path (st : Filesystem) (path : List Char)
    (current_dir : Int) : Int :=
  let start : Int := if path.head? = some '/' then 0 else current_dir
  resolveLoop st (tokenizePath (path.take 1023)) start

/-- `sizeof(targetPath)` in `create_symbolic_link`: `targetPath` is a
`const char *`, so this is the size of a pointer — 8 bytes on the 64-bit
platform the program targets — not the length of the string. -/
def sizeof_charp : Int := 8

/-- Write the characters of a string (plus a terminating NUL) into the image
starting at offset `a`, as the symlink-target loop does. -/
def imageWriteString : (Nat → Char) → Nat → List Char → Nat → Char
  | img, a, [] => Function.update img a nulChar
  | img, a, c :: cs => imageWriteString (Function.update img a c) (a + 1) cs

/-- `create_symbolic_link`: reject a clash, require the target path to
resolve now, reserve a free inode (without marking it: the source only reads
`size == -1` here), claim a directory slot, allocate one block, initialise
the inode (`size` is `sizeof(targetPath)+1`, see `sizeof_charp`), write
the NUL-terminated target path into the block and add the entry. -/
def create_symbolic_link (B : Nat) (st : Filesystem) (linkName : List Char)
    (targetPath : List Char) (parentDir : Nat) : Int × Filesystem :=
  if rechInode linkName (st.directories parentDir) ≠ -1 then (-1, st)
  else if get_inode_from_path st targetPath (parentDir : Int) = -1 then
    (-1, st)
  else
    match scanFirst (fun i => (st.inodes i).size == -1) 0 NUM_INODES with
    | none => (-1, st)
    | some symlinkInode =>
      let dirIndex := rechEntree st parentDir
      if dirIndex = -1 then (-1, st)
      else
        let (blockIndex, st1) := allocate_block st
        if blockIndex = -1 then (-1, st1)
        else
          let st2 := setInode st1 symlinkInode
            { st1.inodes symlinkInode with
                size := sizeof_charp + 1
                type := 2
                inode_rep_parent := (parentDir : Int)
                link_count := 1
                permissions := ['r', 'w', 'x']
                blocks := Function.update (fun _ => (-1 : Int)) 0 blockIndex }
          let st3 := { st2 with image :=
            (imageWriteString st2.image (B + blockIndex.toNat * BLOCK_SIZE)
              targetPath) }
          ((symlinkInode : Int),
            setDirEntry st3 parentDir dirIndex.toNat linkName
              (symlinkInode : Int))

/-- `open_file`: resolve the name in the directory, require type file or
symlink, claim the first free open-file slot and point its cursor at the
absolute image offset of the inode's first block.  No permission check is
performed. -/
def open_file (B : Nat) (st : Filesystem) (filename : List Char)
    (dir_inode : Nat) : Int × Filesystem :=
  let inode := rechInode filename (st.directories dir_inode)
  if inode = -1 then (-1, st)
  else if (st.inodes inode.toNat).type ≠ 1 ∧ (st.inodes inode.toNat).type ≠ 2
  then (-1, st)
  else
    match scanFirst (fun i => (st.opened_file i).inode == -1) 0 MAX_FILE_OPEN
    with
    | none => (-1, st)
    | some i =>
      ((i : Int),
        { st with opened_file := (Function.update st.opened_file i
            ⟨inode, (B : Int) + (st.inodes inode.toNat).blocks 0 * (BLOCK_SIZE : Int)⟩) })

/-- `close_file`: validate the descriptor and clear the slot. -/
def close_file (st : Filesystem) (desc : Int) : Filesystem :=
  if desc > (MAX_FILE_OPEN : Int) ∨ desc < 0 ∨
      (st.opened_file desc.toNat).inode = -1 then st
  else
    { st with opened_file := Function.update st.opened_file desc.toNat ⟨-1, -1⟩ }

/-- The image offset one past which the read/write/seek loops leave block
`nb` (the loops use `lecteur <= sizeof(Filesystem) + (num_block+1)*BLOCK_SIZE`,
an inclusive bound). -/
def blockBound (B : Nat) (nb : Int) : Int :=
  (B : Int) + (nb + 1) * (BLOCK_SIZE : Int)

/-- The scan `read_file`/`write_file`/`seek_file` perform to find which entry
of the inode's block list contains the cursor: first `i` with
`B + blocks[i]*BLOCK_SIZE ≤ lecteur < B + (blocks[i]+1)*BLOCK_SIZE`. -/
def blockSearch (B : Nat) (st : Filesystem) (fi : Nat) (lecteur : Int) :
    Option Nat :=
  scanFirst
    (fun i => decide ((B : Int) + (st.inodes fi).blocks i * (BLOCK_SIZE : Int) ≤ lecteur ∧
      lecteur < blockBound B ((st.inodes fi).blocks i)))
    0 NUM_BLOCKS

/-- Result of the byte-writing loop of `write_file`: the new-bytes counter
`maj`, the final cursor and the final state. -/
structure WriteOut where
  maj : Nat
  lecteur : Int
  st : Filesystem

/-- One byte of the write loop at image offset `a`: probe the byte already
there (`fread`), and when it is the zero byte increment the file inode's
`size`; then write `c` over it.  Returns the new state and whether the
position counted as newly written. -/
def writeByte (fi : Nat) (st : Filesystem) (a : Nat) (c : Char) :
    Filesystem × Bool :=
  let probe := st.image a
  let st1 :=
    if probe = nulChar then
      setInode st fi { st.inodes fi with size := (st.inodes fi).size + 1 }
    else st
  ({ st1 with image := Function.update st1.image a c }, probe == nulChar)

/-- The advance to the next entry of the block list in the write loop:
reread `blocks[bi1]` and, when it is `-1`, allocate a fresh block and
install it there (installing the `-1` again when allocation fails, as the
source does). -/
def nextBlock (fi : Nat) (st : Filesystem) (bi1 : Nat) : Int × Filesystem :=
  let nb0 := (st.inodes fi).blocks bi1
  if nb0 = -1 then
    let (nbA, stA) := allocate_block st
    (nbA, setInode stA fi
      { stA.inodes fi with
          blocks := Function.update (stA.inodes fi).blocks bi1 nbA })
  else (nb0, st)

/-- The byte-writing loop of `write_file` for file inode `fi`.  Each byte is
written at the cursor if the cursor is still within the inclusive bound of
the active block; otherwise the next entry of the block list is taken
(allocating a fresh block and installing it when the entry is `-1`; if no
block is available, the write stops and returns what was written so far,
exactly as the source's `stop` flag does).  Before each write the byte
already present is probed, and when it is the zero byte the new-bytes
counter and the file inode's `size` are incremented. -/
def writeLoop (B : Nat) (fi : Nat) :
    List Char → Int → Int → Nat → Filesystem → Nat → WriteOut
  | [], lect, _nb, _bi, st, maj => ⟨maj, lect, st⟩
  | c :: rest, lect, nb, bi, st, maj =>
    if lect ≤ blockBound B nb then
      let w := writeByte fi st lect.toNat c
      writeLoop B fi rest (lect + 1) nb bi w.1
        (if w.2 then maj + 1 else maj)
    else
      let adv := nextBlock fi st (bi + 1)
      if adv.1 = -1 then ⟨maj, lect, adv.2⟩
      else
        let lect1 := (B : Int) + adv.1 * (BLOCK_SIZE : Int)
        let w := writeByte fi adv.2 lect1.toNat c
        writeLoop B fi rest (lect1 + 1) adv.1 (bi + 1) w.1
          (if w.2 then maj + 1 else maj)

/-- The parent-chain loop closing `write_file`
(`while (id_rep_parent != 0) { id = parent(id); size[id] += maj; }`),
with explicit fuel; `none` marks the runs the C loop does not complete
(cyclic chains) or that index the inode table out of bounds. -/
def chainUpdate : Nat → Int → Int → Filesystem → Option Filesystem
  | 0, _, _, _ => none
  | fuel + 1, id, maj, st =>
    if id = 0 then some st
    else if id < 0 ∨ (NUM_INODES : Int) ≤ id then none
    else
      let p := (st.inodes id.toNat).inode_rep_parent
      if p < 0 ∨ (NUM_INODES : Int) ≤ p then none
      else
        chainUpdate fuel p maj
          (setInode st p.toNat
            { st.inodes p.toNat with size := (st.inodes p.toNat).size + maj })

/-- The list of inode indices whose `size` the parent-chain loop of
`write_file` increments, starting from inode `id`: the parent of `id`, the
parent's parent, and so on down to the root (index 0, included).  This is an
analysis companion of `chainUpdate` reading the same parent pointers. -/
def parentChain (st : Filesystem) : Nat → Int → Option (List Nat)
  | 0, _ => none
  | fuel + 1, id =>
    if id = 0 then some []
    else if id < 0 ∨ (NUM_INODES : Int) ≤ id then none
    else
      let p := (st.inodes id.toNat).inode_rep_parent
      if p < 0 ∨ (NUM_INODES : Int) ≤ p then none
      else (parentChain st fuel p).map (fun l => p.toNat :: l)

/-- `write_file`: validate the descriptor, require write permission and type
file, locate the cursor's block, run the byte loop, propagate the new-bytes
counter up the parent chain, save the cursor and return the counter. -/
def write_file (B : Nat) (st : Filesystem) (desc : Int) (texte : List Char) :
    Option (Int × Filesystem) :=
  if desc > (MAX_FILE_OPEN : Int) ∨ desc < 0 ∨
      (st.opened_file desc.toNat).inode = -1 then some (-1, st)
  else
    let inode := (st.opened_file desc.toNat).inode
    if ¬ has_permission st inode 'w' then some (-1, st)
    else if (st.inodes inode.toNat).type ≠ 1 then some (-1, st)
    else
      let fi := inode.toNat
      let lecteur := (st.opened_file desc.toNat).tete_lecture
      match blockSearch B st fi lecteur with
      | none => some (-1, st)
      | some bi =>
        let nb := (st.inodes fi).blocks bi
        let out := writeLoop B fi texte lecteur nb bi st 0
        match chainUpdate (NUM_INODES + 1) (fi : Int) (out.maj : Int) out.st
        with
        | none => none
        | some st1 =>
          some ((out.maj : Int),
            { st1 with opened_file := (Function.update st1.opened_file
                desc.toNat ⟨inode, out.lecteur⟩) })

/-- The byte-reading loop of `read_file`: copy bytes from the image at the
cursor while the cursor is within the active block's inclusive bound,
following the block list and stopping early at a `-1` entry.  Returns the
bytes read and the final cursor. -/
def readLoop (B : Nat) (fi : Nat) (st : Filesystem) :
    Nat → Int → Int → Nat → List Char → List Char × Int
  | 0, lect, _nb, _bi, acc => (acc.reverse, lect)
  | n + 1, lect, nb, bi, acc =>
    if lect ≤ blockBound B nb then
      readLoop B fi st n (lect + 1) nb bi (st.image lect.toNat :: acc)
    else
      let bi1 := bi + 1
      let nb1 := (st.inodes fi).blocks bi1
      if nb1 = -1 then (acc.reverse, lect)
      else
        let lect1 := (B : Int) + nb1 * (BLOCK_SIZE : Int)
        readLoop B fi st n (lect1 + 1) nb1 bi1 (st.image lect1.toNat :: acc)

/-- `read_file`: validate the descriptor, require type file or symlink and
read permission, locate the cursor's block, run the byte loop and save the
cursor.  `none` covers the diagnostic paths that read nothing (invalid
descriptor, wrong type, no read permission); when the cursor's block is not
found the source still null-terminates the caller's buffer and rewrites the
unchanged cursor, which is an empty successful read here. -/
def read_file (B : Nat) (st : Filesystem) (desc : Int) (size : Nat) :
    Option (List Char × Filesystem) :=
  if desc > (MAX_FILE_OPEN : Int) ∨ desc < 0 ∨
      (st.opened_file desc.toNat).inode = -1 then none
  else
    let inode := (st.opened_file desc.toNat).inode
    if (st.inodes inode.toNat).type ≠ 1 ∧ (st.inodes inode.toNat).type ≠ 2
    then none
    else if ¬ has_permission st inode 'r' then none
    else
      let fi := inode.toNat
      let lecteur := (st.opened_file desc.toNat).tete_lecture
      match blockSearch B st fi lecteur with
      | none => some ([], st)
      | some bi =>
        let nb := (st.inodes fi).blocks bi
        let (buf, lect1) := readLoop B fi st size lecteur nb bi []
        some (buf,
          { st with opened_file := (Function.update st.opened_file desc.toNat
              ⟨inode, lect1⟩) })

/-- The block-walking advance shared by the three `seek_file` cases,
one cursor step at a time: a step within the active block's inclusive bound
moves the cursor by one; past the bound the next block-list entry is taken
(stopping at a `-1` entry, cursor untouched) and the step lands one past
that block's start.  The callers handle the loop's entry (where the source
checks the first block-list entry before consuming any step). -/
def seekWalk (B : Nat) (st : Filesystem) (fi : Nat) :
    Nat → Int → Int → Nat → Int
  | 0, lect, _nb, _bi => lect
  | r + 1, lect, nb, bi =>
    if lect ≤ blockBound B nb then seekWalk B st fi r (lect + 1) nb bi
    else
      let bi1 := bi + 1
      let nb1 := (st.inodes fi).blocks bi1
      if nb1 = -1 then lect
      else
        seekWalk B st fi r ((B : Int) + nb1 * (BLOCK_SIZE : Int) + 1) nb1 bi1

/-- `seek_file`: validate the descriptor and that the offset is
non-negative.  `whence = 0` restarts the cursor at `blocks[0]` and advances
`offset` steps; `whence = 2` advances `offset` steps starting from the block
containing the current cursor (the walk re-enters that block at its start);
`whence = 1` restarts at `blocks[0]` and advances `size - offset` steps.
Unknown `whence` values only log an error.  `none` marks the
whence-2 run whose cursor lies in no block, where the source indexes the
block list at `-1`. -/
def seek_file (B : Nat) (st : Filesystem) (desc : Int) (offset : Int)
    (whence : Int) : Option Filesystem :=
  if desc > (MAX_FILE_OPEN : Int) ∨ desc < 0 ∨
      (st.opened_file desc.toNat).inode = -1 then some st
  else if offset < 0 then some st
  else
    let inode := (st.opened_file desc.toNat).inode
    let fi := inode.toNat
    if whence = 0 then
      let nb0 := (st.inodes fi).blocks 0
      let lect0 := (B : Int) + nb0 * (BLOCK_SIZE : Int)
      let lect :=
        if offset.toNat = 0 ∨ nb0 = -1 then lect0
        else seekWalk B st fi offset.toNat lect0 nb0 0
      some { st with opened_file := (Function.update st.opened_file desc.toNat
        ⟨inode, lect⟩) }
    else if whence = 2 then
      let lecteur := (st.opened_file desc.toNat).tete_lecture
      match blockSearch B st fi lecteur with
      | none => none
      | some bi =>
        let nb := (st.inodes fi).blocks bi
        let lect :=
          if offset.toNat = 0 ∨ nb = -1 then lecteur
          else seekWalk B st fi offset.toNat
            ((B : Int) + nb * (BLOCK_SIZE : Int)) nb bi
        some { st with opened_file := (Function.update st.opened_file
          desc.toNat ⟨inode, lect⟩) }
    else if whence = 1 then
      let nb0 := (st.inodes fi).blocks 0
      let lect0 := (B : Int) + nb0 * (BLOCK_SIZE : Int)
      let pos := ((st.inodes fi).size - offset).toNat
      let lect :=
        if pos = 0 ∨ nb0 = -1 then lect0
        else seekWalk B st fi pos lect0 nb0 0
      some { st with opened_file := (Function.update st.opened_file desc.toNat
        ⟨inode, lect⟩) }
    else some st

/-- The path resolver as the specification states it (section 4.5): start
from the root for an absolute path, else from the given inode; `.` keeps the
current inode, `..` moves to the current inode's parent back-reference, any
other component is looked up in the current directory record and a miss is
*not-found* (`none`).  Symbolic links are never dereferenced. -/
def resolvePathSpec (st : Filesystem) : List (List Char) → Int → Option Int
  | [], inode => some inode
  | t :: ts, inode =>
    if t = ['.'] then resolvePathSpec st ts inode
    else if t = ['.', '.'] then
      resolvePathSpec st ts (st.inodes inode.toNat).inode_rep_parent
    else
      let found := rechInode t (st.directories inode.toNat)
      if found = -1 then none
      else resolvePathSpec st ts found

/-! ### Concrete states used by counterexamples and witnesses -/

/-- A free inode as `init_filesystem` leaves it: `size = -1`, `type = -1`,
zeroed permissions, empty block list, no links. -/
def freeInode (i : Nat) : Inode :=
  ⟨(i : Int), -1, -1, List.replicate 3 nulChar, fun _ => -1, 0, -1⟩

/-- The root inode as `init_filesystem` sets it up. -/
def rootInode : Inode :=
  ⟨0, 0, 0, ['r', 'w', 'x'], fun _ => -1, 0, 0⟩

/-- An empty directory record. -/
def emptyDir : Directory := fun _ => ⟨[], -1⟩

/-- A regular file inode holding block 0, permissions `rw-`, one link,
parent root. -/
def fileInode1 : Inode :=
  ⟨1, 1, 0, ['r', 'w', '-'], Function.update (fun _ => (-1 : Int)) 0 0, 1, 0⟩

/-- A filesystem holding the root directory and one regular file named
`name` at inode 1 (block 0 allocated to it), as left by
`create_file(name, "rw-", 0)` on a fresh image. -/
def baseFS (name : List Char) : Filesystem :=
  { inodes := fun i => if i = 0 then rootInode else
      if i = 1 then fileInode1 else freeInode i
    directories := fun i => if i = 0 then
      (Function.update emptyDir 0 ⟨name, 1⟩) else emptyDir
    free_blocks := fun b => if b = 0 then 1 else 0
    opened_file := fun _ => ⟨-1, -1⟩
    image := fun _ => nulChar }

/-- The state after `ln a b` in the root of `baseFS ['a']`: inode 1 now has
two directory entries, `a` and `b`. -/
def linkedFS : Filesystem := (create_hard_link (baseFS ['a']) ['b'] ['a'] 0 0).2

/-- The state after additionally running `rm a`. -/
def linkedThenDeletedFS : Filesystem := (delete_file linkedFS ['a'] 0).2

/-- The state after `chmod a -r-` in `baseFS ['a']`: inode 1 carries the
permission field `-r-`, reachable through `change_permissions`. -/
def permFS : Filesystem :=
  (change_permissions (baseFS ['a']) ['a'] ['-', 'r', '-'] 0).2

/-- The run of `create_symbolic_link("l", "b", root)` on a filesystem whose
root holds a regular file `b`. -/
def symlinkResult : Int × Filesystem :=
  create_symbolic_link 0 (baseFS ['b']) ['l'] ['b'] 0

end FS


namespace FS

/-- **C1** (code_bug).  The claim states that every namespace operation
preserves the invariant that occupied directory entries reference non-free
inodes, and in particular that after `ln a b` a `rm a` leaves `b` readable.
The code violates this: `delete_file` frees the inode and its blocks
unconditionally, without consulting `link_count`.  Concretely, on a root
holding file `a` (inode 1), `create_hard_link` makes `link_count` 2, and
after `delete_file("a", root)` the surviving entry `b` still references
inode 1, which is now free (`type = -1`, `size = -1`), and opening `b`
fails — the entry references a free inode and the content is gone. -/
theorem C1_delete_file_frees_hard_linked_inode :
    (linkedFS.inodes 1).link_count = 2 ∧
    rechInode ['b'] (linkedThenDeletedFS.directories 0) = 1 ∧
    (linkedThenDeletedFS.inodes 1).type = -1 ∧
    (linkedThenDeletedFS.inodes 1).size = -1 ∧
    linkedThenDeletedFS.free_blocks 0 = 0 ∧
    (open_file 0 linkedThenDeletedFS ['b'] 0).1 = -1 := by decide

/-- **C2** (code_bug).  The claim (and the spec) state that a new symlink's
`size` is `|target_path| + 1`.  The source computes
`sizeof(targetPath) + 1` where `targetPath` is a `const char *`, i.e. the
size of a pointer plus one (9 on the 64-bit target), independent of the
path.  Concretely, linking to the one-character path `b` yields `size = 9`,
not `2`; every other claimed field (type symlink, fresh block at
`blocks[0]`, permissions `rwx`, `link_count` 1) is set as claimed. -/
theorem C2_symlink_size_is_sizeof_pointer :
    symlinkResult.1 = 2 ∧
    (symlinkResult.2.inodes 2).size = sizeof_charp + 1 ∧
    ¬ (symlinkResult.2.inodes 2).size = (['b'].length : Int) + 1 ∧
    (symlinkResult.2.inodes 2).type = 2 ∧
    (symlinkResult.2.inodes 2).blocks 0 = 1 ∧
    symlinkResult.2.free_blocks 1 = 1 ∧
    (symlinkResult.2.inodes 2).permissions = ['r', 'w', 'x'] ∧
    (symlinkResult.2.inodes 2).link_count = 1 := by decide

/-- **C3** (counterexample).  The claim states a permission is granted iff
its letter stands at its own position of the three-character field, and
that a letter at a different position grants nothing.  After
`change_permissions("a", "-r-")` the field is `-r-` — the letter `r` at
position 1, the write position — yet `has_permission` grants read, because
the source only asks `strchr` whether the letter occurs anywhere. -/
theorem C3_position_claim_false :
    (permFS.inodes 1).permissions = ['-', 'r', '-'] ∧
    has_permission permFS 1 'r' = true := by decide

/-- **C3** (amended).  The permission check of the source is by occurrence,
not by position: for a valid inode index and a permission letter in
`{r, w, x}`, `has_permission` grants the permission iff the letter occurs
anywhere in the permission field (up to the first NUL, where the `strchr`
scan stops). -/
theorem C3_permission_by_occurrence (st : Filesystem) (i : Int) (c : Char)
    (hi : 0 ≤ i ∧ i < (NUM_INODES : Int))
    (hc : c = 'r' ∨ c = 'w' ∨ c = 'x') :
    has_permission st i c =
      (permScan (st.inodes i.toNat).permissions).contains c := by
  have hguard : ¬ (i < 0 ∨ (NUM_INODES : Int) ≤ i) := by
    push_neg
    exact ⟨hi.1, hi.2⟩
  rcases hc with rfl | rfl | rfl <;> simp [has_permission, hguard]

/-- Witness for the amended C3 at a concrete input: the state `permFS`
above, inode 1, letter `r`; the occurrence test concretely evaluates to
`true` there. -/
theorem C3_permission_by_occurrence_witness :
    has_permission permFS 1 'r' =
      (permScan (permFS.inodes 1).permissions).contains 'r' ∧
    (permScan (permFS.inodes 1).permissions).contains 'r' = true :=
  ⟨C3_permission_by_occurrence permFS 1 'r' (by decide) (Or.inl rfl),
    by decide⟩

/-! ### Helper lemmas about the state combinators -/

@[simp] theorem setInode_inodes (st : Filesystem) (i : Nat) (v : Inode) :
    (setInode st i v).inodes = Function.update st.inodes i v := rfl

@[simp] theorem setInode_free_blocks (st : Filesystem) (i : Nat) (v : Inode) :
    (setInode st i v).free_blocks = st.free_blocks := rfl

@[simp] theorem setInode_directories (st : Filesystem) (i : Nat) (v : Inode) :
    (setInode st i v).directories = st.directories := rfl

@[simp] theorem setInode_opened_file (st : Filesystem) (i : Nat) (v : Inode) :
    (setInode st i v).opened_file = st.opened_file := rfl

@[simp] theorem setInode_image (st : Filesystem) (i : Nat) (v : Inode) :
    (setInode st i v).image = st.image := rfl

/-- Two inodes with equal fields are equal. -/
theorem inodeExt {x y : Inode} (h1 : x.id = y.id) (h2 : x.type = y.type)
    (h3 : x.size = y.size) (h4 : x.permissions = y.permissions)
    (h5 : x.blocks = y.blocks) (h6 : x.link_count = y.link_count)
    (h7 : x.inode_rep_parent = y.inode_rep_parent) : x = y := by
  cases x
  cases y
  simp only at h1 h2 h3 h4 h5 h6 h7
  subst h1 h2 h3 h4 h5 h6 h7
  rfl

/-- Updating a point twice and landing back on its original value is the
identity (the shape of every rollback in `create_file`). -/
theorem update_update_cancel {α β : Type} [DecidableEq α]
    (f : α → β) (a : α) (v w : β) (hw : w = f a) :
    Function.update (Function.update f a v) a w = f := by
  rw [Function.update_idem, hw, Function.update_eq_self]

set_option maxHeartbeats 1000000 in
/-- **C6** (confirmed, the concrete half of the atomicity claim).  When
`delete_directory` returns the failure sentinel, the state it hands back is
the state it was given — all three failure paths (name not found, not a
directory, no write permission on the target) return before any mutation,
and every mutating run returns 0.  Likewise `move_file` returns its input
state unchanged on every one of its five diagnostic paths. -/
theorem C6_failed_delete_or_move_leaves_state
    (fuel : Nat) (st : Filesystem) (name : List Char)
    (parent src dst : Nat) :
    (∀ r st', delete_directory fuel st name parent = some (r, st') →
      r = -1 → st' = st) ∧
    (∀ r st', move_file st name src dst = (r, st') → r = -1 → st' = st) := by
  constructor
  · intro r st' h hr
    subst hr
    match fuel with
    | 0 =>
      rw [delete_directory] at h
      exact Option.noConfusion h
    | fuel + 1 =>
      rw [delete_directory] at h
      simp only [deleteDirBody] at h
      split at h
      · exact ((Prod.mk.injEq _ _ _ _).mp (Option.some_inj.mp h)).2.symm
      · split at h
        · exact ((Prod.mk.injEq _ _ _ _).mp (Option.some_inj.mp h)).2.symm
        · split at h
          · exact ((Prod.mk.injEq _ _ _ _).mp (Option.some_inj.mp h)).2.symm
          · split at h
            · exact Option.noConfusion h
            · have h0 :=
                ((Prod.mk.injEq _ _ _ _).mp (Option.some_inj.mp h)).1
              exact absurd h0 (by decide)
  · intro r st' h hr
    subst hr
    simp only [move_file] at h
    split at h
    · exact ((Prod.mk.injEq _ _ _ _).mp h).2.symm
    · split at h
      · exact ((Prod.mk.injEq _ _ _ _).mp h).2.symm
      · split at h
        · exact ((Prod.mk.injEq _ _ _ _).mp h).2.symm
        · split at h
          · exact ((Prod.mk.injEq _ _ _ _).mp h).2.symm
          · split at h
            · exact ((Prod.mk.injEq _ _ _ _).mp h).2.symm
            · exact absurd ((Prod.mk.injEq _ _ _ _).mp h).1 (by decide)

/-- Witness for C6 at concrete inputs: moving or recursively deleting the
absent name `z` in the base state fails with `-1` and hands back exactly the
input state. -/
theorem C6_failed_delete_or_move_leaves_state_witness :
    (move_file (baseFS ['a']) ['z'] 0 0).2 = baseFS ['a'] ∧
    delete_directory 1 (baseFS ['a']) ['z'] 0 = some (-1, baseFS ['a']) :=
  ⟨(C6_failed_delete_or_move_leaves_state 1 (baseFS ['a']) ['z'] 0 0 0).2
      (move_file (baseFS ['a']) ['z'] 0 0).1
      (move_file (baseFS ['a']) ['z'] 0 0).2 rfl (by decide),
    rfl⟩

@[simp] theorem free_block_inodes (st : Filesystem) (b : Int) :
    (free_block st b).inodes = st.inodes := by
  rw [free_block]; split <;> rfl

@[simp] theorem free_block_directories (st : Filesystem) (b : Int) :
    (free_block st b).directories = st.directories := by
  rw [free_block]; split <;> rfl

@[simp] theorem free_block_opened_file (st : Filesystem) (b : Int) :
    (free_block st b).opened_file = st.opened_file := by
  rw [free_block]; split <;> rfl

@[simp] theorem free_block_image (st : Filesystem) (b : Int) :
    (free_block st b).image = st.image := by
  rw [free_block]; split <;> rfl

theorem free_block_bitmap_in (st : Filesystem) {b : Int} (h0 : 0 ≤ b)
    (hlt : b < (NUM_BLOCKS : Int)) :
    (free_block st b).free_blocks =
      Function.update st.free_blocks b.toNat 0 := by
  rw [free_block, if_pos ⟨h0, hlt⟩]

set_option maxHeartbeats 1000000 in
/-- **C7** (confirmed).  Every failing run of `create_file` — including the
two failure paths after the inode reservation (no free block, no free
directory slot) — leaves the inode table and the block bitmap exactly as
they were before the call: the reserved inode's `size` is restored to `-1`
and the allocated block, if any, is freed. -/
theorem C7_create_file_failure_rolls_back (st : Filesystem)
    (name perms : List Char) (d : Nat) (r : Int) (st' : Filesystem)
    (h : create_file st name perms d = (r, st')) (hr : r = -1) :
    st'.inodes = st.inodes ∧ st'.free_blocks = st.free_blocks := by
  subst hr
  cases hscan : scanFirst (fun i => (st.inodes i).size == -1) 0 NUM_INODES
  with
  | none =>
    simp only [create_file, hscan] at h
    split at h
    · injection h with h1 h2; subst h2; exact ⟨rfl, rfl⟩
    · split at h
      · injection h with h1 h2; subst h2; exact ⟨rfl, rfl⟩
      · injection h with h1 h2; subst h2; exact ⟨rfl, rfl⟩
  | some idx =>
    have hsz : (st.inodes idx).size = -1 := by
      have := (scanFirst_pos hscan).1
      simpa using this
    cases hbscan : scanFirst (fun i => st.free_blocks i == 0) 0 NUM_BLOCKS
    with
    | none =>
      simp only [create_file, allocate_block, hscan,
        setInode_inodes, setInode_free_blocks, Function.update_same,
        hbscan] at h
      split at h
      · injection h with h1 h2; subst h2; exact ⟨rfl, rfl⟩
      · split at h
        · injection h with h1 h2; subst h2; exact ⟨rfl, rfl⟩
        · injection h with h1 h2
          subst h2
          refine ⟨?_, rfl⟩
          refine update_update_cancel _ _ _ _
            (inodeExt ?_ ?_ ?_ ?_ ?_ ?_ ?_) <;> simp [hsz]
    | some blk =>
      have hblk0 : st.free_blocks blk = 0 := by
        have := (scanFirst_pos hbscan).1
        simpa using this
      have hblkLt : blk < NUM_BLOCKS := by
        have := (scanFirst_pos hbscan).2.2
        omega
      have hne : ¬ ((blk : Int) = -1) := by omega
      simp only [create_file, allocate_block, hscan,
        setInode_inodes, setInode_free_blocks, Function.update_same,
        hbscan, if_neg hne] at h
      split at h
      · injection h with h1 h2; subst h2; exact ⟨rfl, rfl⟩
      · split at h
        · injection h with h1 h2; subst h2; exact ⟨rfl, rfl⟩
        · split at h
          · -- no free directory slot: free the block and roll back
            injection h with h1 h2
            subst h2
            constructor
            · simp only [setInode_inodes, free_block_inodes]
              refine update_update_cancel _ _ _ _
                (inodeExt ?_ ?_ ?_ ?_ ?_ ?_ ?_) <;> simp [hsz]
            · simp only [setInode_free_blocks]
              rw [free_block_bitmap_in _ (by omega)
                (by exact_mod_cast hblkLt)]
              rw [Int.toNat_natCast]
              exact update_update_cancel _ _ _ _ hblk0.symm
          · -- success path: the result is the inode index, never -1
            injection h with h1 h2
            exact absurd h1 (by omega)

/-- A filesystem whose bitmap is completely full: `create_file` reserves an
inode, fails to allocate a block, and must roll back. -/
def fullBitmapFS : Filesystem :=
  { inodes := fun i => if i = 0 then rootInode else freeInode i
    directories := fun _ => emptyDir
    free_blocks := fun _ => 1
    opened_file := fun _ => ⟨-1, -1⟩
    image := fun _ => nulChar }

/-- Witness for C7 at a concrete input: on `fullBitmapFS` the creation
fails after the reservation and the inode table and bitmap are returned
unchanged. -/
theorem C7_create_file_failure_rolls_back_witness :
    (create_file fullBitmapFS ['a'] ['r', 'w', '-'] 0).1 = -1 ∧
    (create_file fullBitmapFS ['a'] ['r', 'w', '-'] 0).2.inodes =
      fullBitmapFS.inodes ∧
    (create_file fullBitmapFS ['a'] ['r', 'w', '-'] 0).2.free_blocks =
      fullBitmapFS.free_blocks := by
  have h1 : (create_file fullBitmapFS ['a'] ['r', 'w', '-'] 0).1 = -1 := by
    decide
  have h2 := C7_create_file_failure_rolls_back fullBitmapFS ['a']
    ['r', 'w', '-'] 0 (create_file fullBitmapFS ['a'] ['r', 'w', '-'] 0).1
    (create_file fullBitmapFS ['a'] ['r', 'w', '-'] 0).2 rfl h1
  exact ⟨h1, h2.1, h2.2⟩

end FS

namespace FS

set_option maxHeartbeats 1000000 in
/-- **C9** (confirmed).  `open_file` grants a descriptor to every existing
file or symlink when a slot is free, with no hypothesis about the inode's
permission field; read permission is enforced by `read_file` and write
permission by `write_file` (both fail on a valid descriptor whose inode
lacks the letter), never at open time. -/
theorem C9_permissions_checked_only_at_read_write :
    (∀ (B : Nat) (st : Filesystem) (name : List Char) (d : Nat),
      rechInode name (st.directories d) ≠ -1 →
      ((st.inodes (rechInode name (st.directories d)).toNat).type = 1 ∨
        (st.inodes (rechInode name (st.directories d)).toNat).type = 2) →
      (∃ k, k < MAX_FILE_OPEN ∧ (st.opened_file k).inode = -1) →
      0 ≤ (open_file B st name d).1) ∧
    (∀ (B : Nat) (st : Filesystem) (desc : Int) (n : Nat),
      ¬ (desc > (MAX_FILE_OPEN : Int) ∨ desc < 0 ∨
        (st.opened_file desc.toNat).inode = -1) →
      ((st.inodes (st.opened_file desc.toNat).inode.toNat).type = 1 ∨
        (st.inodes (st.opened_file desc.toNat).inode.toNat).type = 2) →
      has_permission st (st.opened_file desc.toNat).inode 'r' = false →
      read_file B st desc n = none) ∧
    (∀ (B : Nat) (st : Filesystem) (desc : Int) (texte : List Char),
      ¬ (desc > (MAX_FILE_OPEN : Int) ∨ desc < 0 ∨
        (st.opened_file desc.toNat).inode = -1) →
      has_permission st (st.opened_file desc.toNat).inode 'w' = false →
      write_file B st desc texte = some (-1, st)) := by
  refine ⟨?_, ?_, ?_⟩
  · intro B st name d hfound htype hslot
    obtain ⟨k, hk, hk2⟩ := hslot
    have hs : (scanFirst (fun i => (st.opened_file i).inode == -1) 0
        MAX_FILE_OPEN).isSome :=
      scanFirst_isSome (Nat.zero_le k) (by omega) (by simpa using hk2)
    obtain ⟨j, hj⟩ := Option.isSome_iff_exists.mp hs
    have htype' : ¬ ((st.inodes (rechInode name (st.directories d)).toNat).type
        ≠ 1 ∧
        (st.inodes (rechInode name (st.directories d)).toNat).type ≠ 2) := by
      rcases htype with h | h <;> simp [h]
    simp only [open_file, if_neg hfound, if_neg htype', hj]
    exact Int.natCast_nonneg j
  · intro B st desc n hdesc htype hr
    have htype' : ¬ ((st.inodes (st.opened_file desc.toNat).inode.toNat).type
        ≠ 1 ∧
        (st.inodes (st.opened_file desc.toNat).inode.toNat).type ≠ 2) := by
      rcases htype with h | h <;> simp [h]
    have hcond : ¬ (has_permission st (st.opened_file desc.toNat).inode 'r'
        = true) := by simp [hr]
    simp only [read_file, if_neg hdesc, if_neg htype', if_pos hcond]
  · intro B st desc texte hdesc hw
    have hcond : ¬ (has_permission st (st.opened_file desc.toNat).inode 'w'
        = true) := by simp [hw]
    simp only [write_file, if_neg hdesc, if_pos hcond]

/-- The base filesystem after `chmod a ---`: file `a` retains type 1 but
carries no permission letters at all. -/
def noPermFS : Filesystem :=
  (change_permissions (baseFS ['a']) ['a'] ['-', '-', '-'] 0).2

/-- The state after opening the permissionless file `a` (descriptor 0). -/
def noPermOpenFS : Filesystem := (open_file 0 noPermFS ['a'] 0).2

/-- Witness for C9 at a concrete input: the permissionless file `a` opens
fine (descriptor 0), while reading and writing through that descriptor
fail. -/
theorem C9_permissions_checked_only_at_read_write_witness :
    0 ≤ (open_file 0 noPermFS ['a'] 0).1 ∧
    read_file 0 noPermOpenFS 0 5 = none ∧
    write_file 0 noPermOpenFS 0 ['x'] = some (-1, noPermOpenFS) :=
  ⟨C9_permissions_checked_only_at_read_write.1 0 noPermFS ['a'] 0
      (by decide) (by decide) ⟨0, by decide, by decide⟩,
    C9_permissions_checked_only_at_read_write.2.1 0 noPermOpenFS 0 5
      (by decide) (by decide) (by decide),
    C9_permissions_checked_only_at_read_write.2.2 0 noPermOpenFS 0 ['x']
      (by decide) (by decide)⟩

/-- **C10** (confirmed).  `create_directory` performs no write-permission
check on the parent: whenever the parent's permissions lack `w` but an
inode, a fresh name and a directory slot are available, creating a
subdirectory succeeds, while `create_file` in the same parent fails
immediately with permission denied. -/
theorem C10_create_directory_skips_parent_write_check
    (st : Filesystem) (name perms : List Char) (d : Nat)
    (hw : has_permission st (d : Int) 'w' = false)
    (hfree : (scanFirst (fun i => (st.inodes i).size == -1) 0
      NUM_INODES).isSome)
    (hclash : rechInode name (st.directories d) = -1)
    (hslot : rechEntree st d ≠ -1) :
    0 ≤ (create_directory st name d).1 ∧
    (create_file st name perms d).1 = -1 := by
  constructor
  · obtain ⟨idx, hidx⟩ := Option.isSome_iff_exists.mp hfree
    have hcl : ¬ (rechInode name (st.directories d) ≠ -1) := by
      simp [hclash]
    simp only [create_directory, hidx, if_neg hcl, if_neg hslot]
    exact Int.natCast_nonneg idx
  · have hcond : ¬ (has_permission st (d : Int) 'w' = true) := by simp [hw]
    simp only [create_file, if_pos hcond]

/-- A filesystem whose root directory lacks write permission (`r-x`). -/
def roRootFS : Filesystem :=
  { inodes := fun i => if i = 0 then
      { rootInode with permissions := ['r', '-', 'x'] } else freeInode i
    directories := fun _ => emptyDir
    free_blocks := fun _ => 0
    opened_file := fun _ => ⟨-1, -1⟩
    image := fun _ => nulChar }

/-- Witness for C10 at a concrete input: under the unwritable root, `mkdir
d` succeeds while `touch d` is refused. -/
theorem C10_create_directory_skips_parent_write_check_witness :
    0 ≤ (create_directory roRootFS ['d'] 0).1 ∧
    (create_file roRootFS ['d'] ['r', 'w', '-'] 0).1 = -1 :=
  C10_create_directory_skips_parent_write_check roRootFS ['d']
    ['r', 'w', '-'] 0 (by decide) (by decide) (by decide) (by decide)

end FS

namespace FS

/-- The component loop of the source resolver agrees with the
specification's resolver, reading failure as the `-1` sentinel. -/
theorem resolveLoop_eq_spec (st : Filesystem) :
    ∀ (ts : List (List Char)) (inode : Int),
      resolveLoop st ts inode = (resolvePathSpec st ts inode).getD (-1) := by
  intro ts
  induction ts with
  | nil => intro inode; rfl
  | cons t ts ih =>
    intro inode
    rw [resolveLoop, resolvePathSpec]
    by_cases h1 : t = ['.']
    · simp only [h1, if_pos rfl]
      exact ih inode
    · rw [if_neg h1, if_neg h1]
      by_cases h2 : t = ['.', '.']
      · rw [if_pos h2, if_pos h2]
        exact ih _
      · rw [if_neg h2, if_neg h2]
        by_cases h3 : rechInode t (st.directories inode.toNat) = -1
        · rw [if_pos h3, if_pos h3]
          rfl
        · rw [if_neg h3, if_neg h3]
          exact ih _

set_option maxHeartbeats 400000 in
/-- **C8** (confirmed).  For every path of fewer than 1024 bytes (the
resolver copies the path into a 1024-byte buffer first), the source's
resolver behaves exactly as the specification describes: it starts from
inode 0 when the path begins with `/` and from the given inode otherwise,
`.` keeps the current inode, `..` moves to the current inode's
`inode_rep_parent`, any other component is looked up in the current
directory record, an unresolved component yields the not-found sentinel,
and a final symlink component's own inode is returned (the spec-side
resolver dereferences nothing). -/
theorem C8_path_resolver_follows_spec (st : Filesystem) (p : List Char)
    (s : Int) (hlen : p.length ≤ 1023) :
    get_inode_from_path st p s =
      (resolvePathSpec st (tokenizePath p)
        (if p.head? = some '/' then 0 else s)).getD (-1) := by
  unfold get_inode_from_path
  rw [List.take_of_length_le hlen]
  exact resolveLoop_eq_spec st _ _

/-- Witness for C8 at a concrete input: resolving the absolute path `/a`
from the (arbitrary) starting inode 5 lands on the file's inode 1, equal on
both sides of the refinement. -/
theorem C8_path_resolver_follows_spec_witness :
    get_inode_from_path (baseFS ['a']) ['/', 'a'] 5 =
      (resolvePathSpec (baseFS ['a']) (tokenizePath ['/', 'a'])
        (if (['/', 'a'] : List Char).head? = some '/' then 0 else 5)).getD
        (-1) ∧
    get_inode_from_path (baseFS ['a']) ['/', 'a'] 5 = 1 :=
  ⟨C8_path_resolver_follows_spec (baseFS ['a']) ['/', 'a'] 5 (by decide),
    by decide⟩

end FS


namespace FS

/-- What the write loop preserves, relative to file inode `fi`: all parent
back-references, the sizes of every other inode, and the file's own size up
to the accumulated new-bytes count `k`. -/
def stepPreserves (fi : Nat) (st st2 : Filesystem) (k : Nat) : Prop :=
  (∀ j, (st2.inodes j).inode_rep_parent = (st.inodes j).inode_rep_parent) ∧
  (∀ j, j ≠ fi → (st2.inodes j).size = (st.inodes j).size) ∧
  (st2.inodes fi).size = (st.inodes fi).size + (k : Int)

theorem stepPreserves_refl (fi : Nat) (st : Filesystem) :
    stepPreserves fi st st 0 :=
  ⟨fun _ => rfl, fun _ _ => rfl, by simp⟩

theorem stepPreserves_trans {fi : Nat} {st st2 st3 : Filesystem}
    {k k' : Nat} (h1 : stepPreserves fi st st2 k)
    (h2 : stepPreserves fi st2 st3 k') :
    stepPreserves fi st st3 (k + k') := by
  obtain ⟨p1, s1, f1⟩ := h1
  obtain ⟨p2, s2, f2⟩ := h2
  refine ⟨fun j => (p2 j).trans (p1 j),
    fun j hj => (s2 j hj).trans (s1 j hj), ?_⟩
  rw [f2, f1]
  push_cast
  ring

theorem stepPreserves_of_inodes_eq {fi : Nat} {st st2 : Filesystem}
    (h : st2.inodes = st.inodes) : stepPreserves fi st st2 0 :=
  ⟨fun j => by rw [h], fun j _ => by rw [h], by rw [h]; simp⟩

@[simp] theorem allocate_block_inodes (st : Filesystem) :
    ((allocate_block st).2).inodes = st.inodes := by
  rw [allocate_block]
  cases scanFirst (fun i => st.free_blocks i == 0) 0 NUM_BLOCKS <;> rfl

/-- A probe hitting the zero byte: the position counts as new and the file
size is bumped by one. -/
theorem writeByte_new (fi : Nat) (st : Filesystem) (a : Nat) (c : Char)
    (hpr : st.image a = nulChar) :
    (writeByte fi st a c).2 = true ∧
    stepPreserves fi st (writeByte fi st a c).1 1 := by
  constructor
  · simp [writeByte, hpr]
  · rw [writeByte]
    simp only [if_pos hpr]
    refine ⟨fun j => ?_, fun j hj => ?_, ?_⟩
    · by_cases hj : j = fi <;>
        simp [setInode_inodes, Function.update_apply, hj]
    · simp [setInode_inodes, Function.update_apply, hj]
    · simp [setInode_inodes, Function.update_apply]

/-- A probe hitting a non-zero byte: nothing counts and no size moves. -/
theorem writeByte_old (fi : Nat) (st : Filesystem) (a : Nat) (c : Char)
    (hpr : ¬ st.image a = nulChar) :
    (writeByte fi st a c).2 = false ∧
    stepPreserves fi st (writeByte fi st a c).1 0 := by
  constructor
  · simp [writeByte, hpr]
  · rw [writeByte]
    simp only [if_neg hpr]
    exact stepPreserves_of_inodes_eq rfl

/-- Advancing the block list preserves every size and parent. -/
theorem nextBlock_stepPreserves (fi : Nat) (st : Filesystem) (bi1 : Nat) :
    stepPreserves fi st (nextBlock fi st bi1).2 0 := by
  rw [nextBlock]
  by_cases hmiss : (st.inodes fi).blocks bi1 = -1
  · simp only [if_pos hmiss]
    refine ⟨fun j => ?_, fun j hj => ?_, ?_⟩
    · by_cases hj : j = fi <;>
        simp [setInode_inodes, Function.update_apply, hj]
    · simp [setInode_inodes, Function.update_apply, hj]
    · simp [setInode_inodes, Function.update_apply]
  · simp only [if_neg hmiss]
    exact stepPreserves_refl fi st

set_option maxHeartbeats 1000000 in
/-- The byte loop of `write_file` returns a new-bytes count `k` bounded by
the number of bytes submitted, adds exactly `k` to the file inode's size,
and touches no other inode's size and no parent back-reference. -/
theorem writeLoop_facts (B : Nat) (fi : Nat) (texte : List Char) :
    ∀ (lect nb : Int) (bi : Nat) (st : Filesystem) (maj : Nat),
      ∃ k, (writeLoop B fi texte lect nb bi st maj).maj = maj + k ∧
        k ≤ texte.length ∧
        stepPreserves fi st (writeLoop B fi texte lect nb bi st maj).st k := by
  induction texte with
  | nil =>
    intro lect nb bi st maj
    exact ⟨0, rfl, Nat.le_refl _, stepPreserves_refl fi st⟩
  | cons c rest ih =>
    intro lect nb bi st maj
    rw [writeLoop]
    by_cases hin : lect ≤ blockBound B nb
    · rw [if_pos hin]
      dsimp only
      by_cases hpr : st.image lect.toNat = nulChar
      · obtain ⟨hw2, hwp⟩ := writeByte_new fi st lect.toNat c hpr
        rw [hw2, if_pos rfl]
        obtain ⟨k, h1, h2, h3⟩ := ih (lect + 1) nb bi
          (writeByte fi st lect.toNat c).1 (maj + 1)
        refine ⟨1 + k, by omega, ?_, stepPreserves_trans hwp h3⟩
        simp only [List.length_cons]
        omega
      · obtain ⟨hw2, hwp⟩ := writeByte_old fi st lect.toNat c hpr
        rw [hw2, if_neg (by simp)]
        obtain ⟨k, h1, h2, h3⟩ := ih (lect + 1) nb bi
          (writeByte fi st lect.toNat c).1 maj
        refine ⟨0 + k, by omega, ?_, stepPreserves_trans hwp h3⟩
        simp only [List.length_cons]
        omega
    · rw [if_neg hin]
      dsimp only
      by_cases hstop : (nextBlock fi st (bi + 1)).1 = -1
      · rw [if_pos hstop]
        exact ⟨0, rfl, by simp, nextBlock_stepPreserves fi st (bi + 1)⟩
      · rw [if_neg hstop]
        have hadv := nextBlock_stepPreserves fi st (bi + 1)
        by_cases hpr : (nextBlock fi st (bi + 1)).2.image
            ((B : Int) + (nextBlock fi st (bi + 1)).1 *
              (BLOCK_SIZE : Int)).toNat = nulChar
        · obtain ⟨hw2, hwp⟩ := writeByte_new fi (nextBlock fi st (bi + 1)).2
            ((B : Int) + (nextBlock fi st (bi + 1)).1 *
              (BLOCK_SIZE : Int)).toNat c hpr
          rw [hw2, if_pos rfl]
          obtain ⟨k, h1, h2, h3⟩ := ih
            ((B : Int) + (nextBlock fi st (bi + 1)).1 * (BLOCK_SIZE : Int)
              + 1)
            (nextBlock fi st (bi + 1)).1 (bi + 1)
            (writeByte fi (nextBlock fi st (bi + 1)).2
              ((B : Int) + (nextBlock fi st (bi + 1)).1 *
                (BLOCK_SIZE : Int)).toNat c).1 (maj + 1)
          refine ⟨1 + k, by omega, ?_,
            stepPreserves_trans (stepPreserves_trans hadv hwp) h3⟩
          simp only [List.length_cons]
          omega
        · obtain ⟨hw2, hwp⟩ := writeByte_old fi (nextBlock fi st (bi + 1)).2
            ((B : Int) + (nextBlock fi st (bi + 1)).1 *
              (BLOCK_SIZE : Int)).toNat c hpr
          rw [hw2, if_neg (by simp)]
          obtain ⟨k, h1, h2, h3⟩ := ih
            ((B : Int) + (nextBlock fi st (bi + 1)).1 * (BLOCK_SIZE : Int)
              + 1)
            (nextBlock fi st (bi + 1)).1 (bi + 1)
            (writeByte fi (nextBlock fi st (bi + 1)).2
              ((B : Int) + (nextBlock fi st (bi + 1)).1 *
                (BLOCK_SIZE : Int)).toNat c).1 maj
          refine ⟨0 + k, by omega, ?_,
            stepPreserves_trans (stepPreserves_trans hadv hwp) h3⟩
          simp only [List.length_cons]
          omega

end FS

namespace FS

/-- The parent chain only reads parent back-references, so any two states
agreeing on them produce the same chain. -/
theorem parentChain_congr (stA stB : Filesystem)
    (hp : ∀ j, (stB.inodes j).inode_rep_parent =
      (stA.inodes j).inode_rep_parent) :
    ∀ (fuel : Nat) (id : Int),
      parentChain stB fuel id = parentChain stA fuel id := by
  intro fuel
  induction fuel with
  | zero => intro id; rfl
  | succ n ih =>
    intro id
    rw [parentChain, parentChain]
    by_cases h0 : id = 0
    · rw [if_pos h0, if_pos h0]
    · rw [if_neg h0, if_neg h0]
      by_cases hr : id < 0 ∨ (NUM_INODES : Int) ≤ id
      · rw [if_pos hr, if_pos hr]
      · rw [if_neg hr, if_neg hr]
        dsimp only
        rw [hp id.toNat]
        by_cases hp2 : (stA.inodes id.toNat).inode_rep_parent < 0 ∨
            (NUM_INODES : Int) ≤ (stA.inodes id.toNat).inode_rep_parent
        · rw [if_pos hp2, if_pos hp2]
        · rw [if_neg hp2, if_neg hp2, ih]

set_option maxHeartbeats 1000000 in
/-- When the parent chain of `id` is the duplicate-free list `L`, the
closing loop of `write_file` succeeds and adds `maj` to the size of exactly
the inodes of `L`, leaving every other inode untouched. -/
theorem chainUpdate_facts :
    ∀ (fuel : Nat) (id maj : Int) (st : Filesystem) (L : List Nat),
      parentChain st fuel id = some L → L.Nodup →
      ∃ st2, chainUpdate fuel id maj st = some st2 ∧
        (∀ d ∈ L, (st2.inodes d).size = (st.inodes d).size + maj) ∧
        (∀ d, d ∉ L → st2.inodes d = st.inodes d) := by
  intro fuel
  induction fuel with
  | zero =>
    intro id maj st L hL
    rw [parentChain] at hL
    exact absurd hL (by simp)
  | succ n ih =>
    intro id maj st L hL hnd
    rw [parentChain] at hL
    rw [chainUpdate]
    by_cases h0 : id = 0
    · rw [if_pos h0] at hL
      rw [if_pos h0]
      have hLnil : L = [] := (Option.some_inj.mp hL).symm
      subst hLnil
      exact ⟨st, rfl, by simp, fun d _ => rfl⟩
    · rw [if_neg h0] at hL
      rw [if_neg h0]
      by_cases hr : id < 0 ∨ (NUM_INODES : Int) ≤ id
      · rw [if_pos hr] at hL
        exact absurd hL (by simp)
      · rw [if_neg hr] at hL
        rw [if_neg hr]
        dsimp only at hL ⊢
        by_cases hpr : (st.inodes id.toNat).inode_rep_parent < 0 ∨
            (NUM_INODES : Int) ≤ (st.inodes id.toNat).inode_rep_parent
        · rw [if_pos hpr] at hL
          exact absurd hL (by simp)
        · rw [if_neg hpr] at hL
          rw [if_neg hpr]
          obtain ⟨L', hL', rfl⟩ : ∃ L', parentChain st n
              (st.inodes id.toNat).inode_rep_parent = some L' ∧
              L = (st.inodes id.toNat).inode_rep_parent.toNat :: L' := by
            cases hLp : parentChain st n
                (st.inodes id.toNat).inode_rep_parent with
            | none => rw [hLp] at hL; simp at hL
            | some L0 =>
              rw [hLp] at hL
              simp at hL
              exact ⟨L0, rfl, hL.symm⟩
          obtain ⟨hnotmem, hnd'⟩ := List.nodup_cons.mp hnd
          have hchainB : parentChain
              (setInode st (st.inodes id.toNat).inode_rep_parent.toNat
                { st.inodes (st.inodes id.toNat).inode_rep_parent.toNat with
                  size := (st.inodes
                    (st.inodes id.toNat).inode_rep_parent.toNat).size
                    + maj }) n
              (st.inodes id.toNat).inode_rep_parent = some L' := by
            rw [parentChain_congr st _ ?_ n]
            · exact hL'
            · intro j
              by_cases hj : j =
                  (st.inodes id.toNat).inode_rep_parent.toNat <;>
                simp [setInode_inodes, Function.update_apply, hj]
          obtain ⟨st2, hcu, hsz, hout⟩ := ih
            (st.inodes id.toNat).inode_rep_parent maj _ L' hchainB hnd'
          refine ⟨st2, hcu, ?_, ?_⟩
          · intro d hd
            rcases List.mem_cons.mp hd with rfl | hd'
            · rw [hout _ hnotmem]
              simp [setInode_inodes, Function.update_same]
            · rw [hsz d hd']
              have hne : d ≠
                  (st.inodes id.toNat).inode_rep_parent.toNat :=
                fun hEq => hnotmem (hEq ▸ hd')
              simp [setInode_inodes, Function.update_apply, hne]
          · intro d hd
            have hd1 : d ≠
                (st.inodes id.toNat).inode_rep_parent.toNat :=
              fun hEq => hd (hEq ▸ List.mem_cons_self _ _)
            have hd2 : d ∉ L' := fun hmem => hd (List.mem_cons_of_mem _ hmem)
            rw [hout d hd2]
            simp [setInode_inodes, Function.update_apply, hd1]

end FS

namespace FS

set_option maxHeartbeats 1000000 in
/-- **C4** (confirmed).  A successful `write_file` returns the new-bytes
count: the number of written positions whose probed byte was zero, which is
exactly the amount the file inode's `size` grew by and is at most the
number of bytes submitted (overwritten positions do not count).  Every
directory on the parent chain from the file's inode up to the root has its
`size` increased by exactly that returned count.  The duplicate-freeness
hypotheses on the chain hold in every reachable state (the chain loop of
the source would not terminate otherwise). -/
theorem C4_write_returns_new_byte_count_and_bumps_parents
    (B : Nat) (st : Filesystem) (desc : Int) (texte : List Char)
    (r : Int) (st' : Filesystem) (L : List Nat)
    (h : write_file B st desc texte = some (r, st')) (hr : 0 ≤ r)
    (hL : parentChain st (NUM_INODES + 1)
      (((st.opened_file desc.toNat).inode.toNat : Nat) : Int) = some L)
    (hnd : L.Nodup)
    (hfi : (st.opened_file desc.toNat).inode.toNat ∉ L) :
    (st'.inodes (st.opened_file desc.toNat).inode.toNat).size =
      (st.inodes (st.opened_file desc.toNat).inode.toNat).size + r ∧
    (∀ d ∈ L, (st'.inodes d).size = (st.inodes d).size + r) ∧
    r ≤ (texte.length : Int) := by
  simp only [write_file] at h
  split at h
  · have h1 := ((Prod.mk.injEq _ _ _ _).mp (Option.some_inj.mp h)).1
    exfalso
    omega
  · split at h
    · have h1 := ((Prod.mk.injEq _ _ _ _).mp (Option.some_inj.mp h)).1
      exfalso
      omega
    · split at h
      · have h1 := ((Prod.mk.injEq _ _ _ _).mp (Option.some_inj.mp h)).1
        exfalso
        omega
      · split at h
        · have h1 := ((Prod.mk.injEq _ _ _ _).mp (Option.some_inj.mp h)).1
          exfalso
          omega
        · rename_i bi hsearch
          split at h
          · exact Option.noConfusion h
          · rename_i stC hcu
            obtain ⟨hr', hst'⟩ :=
              (Prod.mk.injEq _ _ _ _).mp (Option.some_inj.mp h)
            subst hst'
            obtain ⟨k, hk1, hk2, hp, hs, hfsz⟩ := writeLoop_facts B
              ((st.opened_file desc.toNat).inode.toNat) texte
              ((st.opened_file desc.toNat).tete_lecture)
              ((st.inodes
                ((st.opened_file desc.toNat).inode.toNat)).blocks bi)
              bi st 0
            have hchain2 : parentChain
                (writeLoop B ((st.opened_file desc.toNat).inode.toNat)
                  texte ((st.opened_file desc.toNat).tete_lecture)
                  ((st.inodes
                    ((st.opened_file desc.toNat).inode.toNat)).blocks bi)
                  bi st 0).st (NUM_INODES + 1)
                (((st.opened_file desc.toNat).inode.toNat : Nat) : Int) =
                some L := by
              rw [parentChain_congr st _ hp]
              exact hL
            obtain ⟨st2, hcu2, hsz2, hout2⟩ := chainUpdate_facts
              (NUM_INODES + 1)
              (((st.opened_file desc.toNat).inode.toNat : Nat) : Int)
              (((writeLoop B ((st.opened_file desc.toNat).inode.toNat)
                texte ((st.opened_file desc.toNat).tete_lecture)
                ((st.inodes
                  ((st.opened_file desc.toNat).inode.toNat)).blocks bi)
                bi st 0).maj : Nat) : Int)
              _ L hchain2 hnd
            have hCeq : some st2 = some stC := hcu2.symm.trans hcu
            have hC : stC = st2 := (Option.some_inj.mp hCeq).symm
            subst hC
            dsimp only
            refine ⟨?_, ?_, ?_⟩
            · rw [hout2 _ hfi, hfsz, ← hr', hk1]
              push_cast
              ring
            · intro d hd
              have hdne : d ≠ (st.opened_file desc.toNat).inode.toNat :=
                fun hEq => hfi (hEq ▸ hd)
              rw [hsz2 d hd, hs d hdne, ← hr']
            · rw [← hr', hk1]
              push_cast
              omega

/-- A filesystem with one open file: inode 1 (opened as descriptor 0 with
cursor at the start of its block 0, with `B = 0`) whose first image byte
already holds a non-zero character, so a two-byte write overwrites one byte
and newly writes one. -/
def wtFS : Filesystem :=
  { inodes := fun i => if i = 0 then rootInode else
      if i = 1 then fileInode1 else freeInode i
    directories := fun i => if i = 0 then
      (Function.update emptyDir 0 ⟨['a'], 1⟩) else emptyDir
    free_blocks := fun b => if b = 0 then 1 else 0
    opened_file := fun dd => if dd = 0 then ⟨1, 0⟩ else ⟨-1, -1⟩
    image := fun a => if a = 0 then 'q' else nulChar }

/-- The run of the two-byte write on `wtFS`. -/
def wtResult : Int × Filesystem :=
  (write_file 0 wtFS 0 ['x', 'y']).getD (0, wtFS)

/-- Witness for C4 at a concrete input: writing `xy` over the image bytes
`q`, NUL returns 1 (one newly-written byte, one overwrite), and the file's
size and its parent chain (just the root) rise by exactly 1, not 2. -/
theorem C4_write_returns_new_byte_count_and_bumps_parents_witness :
    write_file 0 wtFS 0 ['x', 'y'] = some (wtResult.1, wtResult.2) ∧
    wtResult.1 = 1 ∧
    (wtResult.2.inodes 1).size = (wtFS.inodes 1).size + 1 ∧
    (wtResult.2.inodes 0).size = (wtFS.inodes 0).size + 1 := by
  have hrun : write_file 0 wtFS 0 ['x', 'y'] =
      some (wtResult.1, wtResult.2) := rfl
  have h1 : wtResult.1 = 1 := by decide
  have hmain := C4_write_returns_new_byte_count_and_bumps_parents 0 wtFS 0
    ['x', 'y'] wtResult.1 wtResult.2 [0] hrun (by rw [h1]; decide)
    (by decide) (by decide) (by decide)
  refine ⟨hrun, h1, ?_, ?_⟩
  · rw [← h1]
    exact hmain.1
  · rw [← h1]
    exact hmain.2.1 0 (by decide)

end FS

namespace FS

/-- A scan whose very first index matches. -/
theorem scanFirst_zero {p : Nat → Bool} {fuel : Nat} (hf : 0 < fuel)
    (hp : p 0 = true) : scanFirst p 0 fuel = some 0 := by
  match fuel, hf with
  | n + 1, _ => rw [scanFirst, if_pos hp]

/-- The image contents produced by an in-block run of the write loop:
successive updates at consecutive offsets. -/
def writeImg : (Nat → Char) → Int → List Char → Nat → Char
  | img, _, [] => img
  | img, lect, c :: cs =>
    writeImg (Function.update img lect.toNat c) (lect + 1) cs

theorem writeImg_lower :
    ∀ (b : List Char) (img : Nat → Char) (lect : Int) (a : Nat),
      (a : Int) < lect → writeImg img lect b a = img a := by
  intro b
  induction b with
  | nil => intro img lect a _; rfl
  | cons c cs ih =>
    intro img lect a ha
    rw [writeImg]
    rw [ih _ (lect + 1) a (by omega)]
    have hne : a ≠ lect.toNat := by omega
    exact Function.update_noteq hne _ _

theorem writeImg_get :
    ∀ (b : List Char) (img : Nat → Char) (lect : Int) (j : Nat)
      (hj : j < b.length), 0 ≤ lect →
      writeImg img lect b ((lect + (j : Int)).toNat) = b.get ⟨j, hj⟩ := by
  intro b
  induction b with
  | nil => intro img lect j hj; simp at hj
  | cons c cs ih =>
    intro img lect j hj hl
    match j with
    | 0 =>
      rw [writeImg]
      have h1 : ((lect + ((0 : Nat) : Int)).toNat : Int) < lect + 1 := by
        omega
      rw [writeImg_lower cs _ (lect + 1) _ h1]
      have h2 : (lect + ((0 : Nat) : Int)).toNat = lect.toNat := by omega
      rw [h2, Function.update_same]
      rfl
    | j + 1 =>
      rw [writeImg]
      have h1 : lect + ((j + 1 : Nat) : Int) = (lect + 1) + (j : Int) := by
        push_cast
        ring
      rw [h1]
      rw [ih _ (lect + 1) j (by simpa using Nat.lt_of_succ_lt_succ hj)
        (by omega)]
      rfl

/-- The state components an in-block write run never touches. -/
def framesEq (stA stB : Filesystem) : Prop :=
  stB.directories = stA.directories ∧ stB.free_blocks = stA.free_blocks ∧
  stB.opened_file = stA.opened_file ∧
  ∀ j, (stB.inodes j).type = (stA.inodes j).type ∧
    (stB.inodes j).permissions = (stA.inodes j).permissions ∧
    (stB.inodes j).blocks = (stA.inodes j).blocks

theorem framesEq_refl (st : Filesystem) : framesEq st st :=
  ⟨rfl, rfl, rfl, fun _ => ⟨rfl, rfl, rfl⟩⟩

theorem framesEq_trans {stA stB stC : Filesystem} (h1 : framesEq stA stB)
    (h2 : framesEq stB stC) : framesEq stA stC := by
  obtain ⟨d1, f1, o1, i1⟩ := h1
  obtain ⟨d2, f2, o2, i2⟩ := h2
  exact ⟨d2.trans d1, f2.trans f1, o2.trans o1, fun j =>
    ⟨((i2 j).1).trans (i1 j).1, ((i2 j).2.1).trans (i1 j).2.1,
      ((i2 j).2.2).trans (i1 j).2.2⟩⟩

theorem writeByte_frames (fi : Nat) (st : Filesystem) (a : Nat) (c : Char) :
    framesEq st (writeByte fi st a c).1 ∧
    (writeByte fi st a c).1.image = Function.update st.image a c := by
  rw [writeByte]
  dsimp only
  by_cases hpr : st.image a = nulChar
  · rw [if_pos hpr]
    refine ⟨⟨rfl, rfl, rfl, fun j => ?_⟩, rfl⟩
    by_cases hj : j = fi <;>
      simp [setInode_inodes, Function.update_apply, hj]
  · rw [if_neg hpr]
    exact ⟨⟨rfl, rfl, rfl, fun j => ⟨rfl, rfl, rfl⟩⟩, rfl⟩

set_option maxHeartbeats 1000000 in
/-- An in-block run of the write loop (every byte lands within the active
block's inclusive bound): the cursor advances by the byte count, the image
receives exactly the submitted bytes at consecutive offsets, and
directories, bitmap, open-file table, types, permissions and block lists
are untouched. -/
theorem writeLoop_inblock (B : Nat) (fi : Nat) (b : List Char) :
    ∀ (lect nb : Int) (bi : Nat) (st : Filesystem) (maj : Nat),
      lect + b.length ≤ blockBound B nb + 1 →
      (writeLoop B fi b lect nb bi st maj).lecteur = lect + b.length ∧
      (writeLoop B fi b lect nb bi st maj).st.image =
        writeImg st.image lect b ∧
      framesEq st (writeLoop B fi b lect nb bi st maj).st := by
  induction b with
  | nil =>
    intro lect nb bi st maj _
    refine ⟨by simp [writeLoop], rfl, framesEq_refl st⟩
  | cons c cs ih =>
    intro lect nb bi st maj hbound
    have hin : lect ≤ blockBound B nb := by
      have := hbound
      simp only [List.length_cons] at this
      omega
    rw [writeLoop, if_pos hin]
    dsimp only
    obtain ⟨hfr, him⟩ := writeByte_frames fi st lect.toNat c
    obtain ⟨ih1, ih2, ih3⟩ := ih (lect + 1) nb bi
      (writeByte fi st lect.toNat c).1 (if (writeByte fi st lect.toNat c).2
        then maj + 1 else maj)
      (by simp only [List.length_cons] at hbound; omega)
    refine ⟨?_, ?_, framesEq_trans hfr ih3⟩
    · rw [ih1]
      simp only [List.length_cons]
      push_cast
      ring
    · rw [ih2, writeImg, him]

set_option maxHeartbeats 1000000 in
/-- An in-bounds run of the read loop returns exactly the image bytes at
consecutive offsets from the cursor. -/
theorem readLoop_inblock (B : Nat) (fi : Nat) (st : Filesystem) :
    ∀ (n : Nat) (lect nb : Int) (bi : Nat) (acc : List Char),
      lect + n ≤ blockBound B nb + 1 →
      readLoop B fi st n lect nb bi acc =
        (acc.reverse ++ (List.range n).map
          (fun j : Nat => st.image (lect + (j : Int)).toNat),
          lect + n) := by
  intro n
  induction n with
  | zero =>
    intro lect nb bi acc _
    simp [readLoop]
  | succ n ih =>
    intro lect nb bi acc hbound
    have hin : lect ≤ blockBound B nb := by omega
    rw [readLoop, if_pos hin]
    rw [ih (lect + 1) nb bi _ (by push_cast at hbound ⊢; omega)]
    refine Prod.ext ?_ ?_
    · show (st.image lect.toNat :: acc).reverse ++ _ = _
      rw [List.reverse_cons, List.append_assoc]
      congr 1
      rw [List.range_succ_eq_map, List.map_cons, List.map_map]
      rw [List.singleton_append]
      congr 1
      · congr 1
        omega
      · apply List.map_congr_left
        intro j _
        show st.image (lect + 1 + (j : Int)).toNat =
          st.image (lect + ((j + 1 : Nat) : Int)).toNat
        congr 1
        omega
    · show lect + 1 + (n : Int) = lect + ((n + 1 : Nat) : Int)
      push_cast
      ring

set_option maxHeartbeats 400000 in
/-- The closing parent-chain loop touches only inode sizes. -/
theorem chainUpdate_preserves :
    ∀ (fuel : Nat) (id maj : Int) (st st2 : Filesystem),
      chainUpdate fuel id maj st = some st2 →
      st2.image = st.image ∧ st2.directories = st.directories ∧
      st2.free_blocks = st.free_blocks ∧
      st2.opened_file = st.opened_file ∧
      ∀ j, (st2.inodes j).type = (st.inodes j).type ∧
        (st2.inodes j).permissions = (st.inodes j).permissions ∧
        (st2.inodes j).blocks = (st.inodes j).blocks := by
  intro fuel
  induction fuel with
  | zero =>
    intro id maj st st2 h
    rw [chainUpdate] at h
    exact absurd h (by simp)
  | succ n ih =>
    intro id maj st st2 h
    rw [chainUpdate] at h
    by_cases h0 : id = 0
    · rw [if_pos h0] at h
      obtain rfl := Option.some_inj.mp h
      exact ⟨rfl, rfl, rfl, rfl, fun _ => ⟨rfl, rfl, rfl⟩⟩
    · rw [if_neg h0] at h
      by_cases hr : id < 0 ∨ (NUM_INODES : Int) ≤ id
      · rw [if_pos hr] at h
        exact absurd h (by simp)
      · rw [if_neg hr] at h
        dsimp only at h
        by_cases hpr : (st.inodes id.toNat).inode_rep_parent < 0 ∨
            (NUM_INODES : Int) ≤ (st.inodes id.toNat).inode_rep_parent
        · rw [if_pos hpr] at h
          exact absurd h (by simp)
        · rw [if_neg hpr] at h
          obtain ⟨i1, i2, i3, i4, i5⟩ := ih _ _ _ _ h
          refine ⟨i1, i2, i3, i4, fun j => ?_⟩
          obtain ⟨t5, p5, b5⟩ := i5 j
          by_cases hj : j =
              (st.inodes id.toNat).inode_rep_parent.toNat <;>
            · rw [t5, p5, b5]
              simp [setInode_inodes, Function.update_apply, hj]

/-- `has_permission` only reads the permission field. -/
theorem has_permission_congr {stA stB : Filesystem} (i : Int) (c : Char)
    (hperm : ∀ j, (stB.inodes j).permissions =
      (stA.inodes j).permissions) :
    has_permission stB i c = has_permission stA i c := by
  rw [has_permission, has_permission]
  by_cases hr : i < 0 ∨ (NUM_INODES : Int) ≤ i
  · rw [if_pos hr, if_pos hr]
  · rw [if_neg hr, if_neg hr]
    dsimp only
    rw [hperm i.toNat]

end FS


namespace FS

set_option maxHeartbeats 2000000 in
/-- **C5** (amended).  On a freshly created file opened as `dk` (cursor at
the start of its first block), writing `n ≤ BLOCK_SIZE + 1` bytes, seeking
back to the start and reading `n` bytes returns exactly the written bytes.
(The bound is forced by the loops' inclusive block bound: `BLOCK_SIZE + 1`
bytes fit the walk of one block; the 514th byte of a longer write lands in
a freshly allocated, physically adjacent block and overwrites the 513th —
see the counterexample.) -/
theorem C5_roundtrip_within_first_block (B : Nat) (st : Filesystem)
    (dk : Int) (b : List Char) (fi : Nat) (L : List Nat)
    (hdesc : 0 ≤ dk ∧ dk < (MAX_FILE_OPEN : Int))
    (hfi : (st.opened_file dk.toNat).inode = (fi : Int))
    (htype : (st.inodes fi).type = 1)
    (hw : has_permission st (fi : Int) 'w' = true)
    (hread : has_permission st (fi : Int) 'r' = true)
    (hb0 : 0 ≤ (st.inodes fi).blocks 0)
    (hcur : (st.opened_file dk.toNat).tete_lecture =
      (B : Int) + (st.inodes fi).blocks 0 * (BLOCK_SIZE : Int))
    (hlen : b.length ≤ BLOCK_SIZE + 1)
    (hchain : parentChain st (NUM_INODES + 1) (fi : Int) = some L)
    (hnd : L.Nodup) :
    ∃ r st1 st2 buf st3,
      write_file B st dk b = some (r, st1) ∧
      seek_file B st1 dk 0 0 = some st2 ∧
      read_file B st2 dk b.length = some (buf, st3) ∧
      buf = b := by
  have hBS : ((BLOCK_SIZE : Nat) : Int) = 512 := by norm_num [BLOCK_SIZE]
  have hS0 : 0 ≤ (B : Int) + (st.inodes fi).blocks 0 * (BLOCK_SIZE : Int)
    := by
    have := mul_nonneg hb0 (by rw [hBS]; norm_num :
      (0 : Int) ≤ (BLOCK_SIZE : Int))
    omega
  have hbound : (B : Int) + (st.inodes fi).blocks 0 * (BLOCK_SIZE : Int) +
      (b.length : Int) ≤
      blockBound B ((st.inodes fi).blocks 0) + 1 := by
    rw [blockBound]
    have hring : ((st.inodes fi).blocks 0 + 1) * (BLOCK_SIZE : Int) =
        (st.inodes fi).blocks 0 * (BLOCK_SIZE : Int) + (BLOCK_SIZE : Int)
      := by ring
    rw [hring, hBS]
    have hlen' : ((b.length : Nat) : Int) ≤ 513 := by
      have : (BLOCK_SIZE : Nat) + 1 = 513 := by norm_num [BLOCK_SIZE]
      omega
    omega
  have guard1 : ¬ (dk > (MAX_FILE_OPEN : Int) ∨ dk < 0 ∨
      (fi : Int) = -1) := by
    push_neg
    refine ⟨by omega, by omega, by omega⟩
  have hsearch : blockSearch B st fi
      ((B : Int) + (st.inodes fi).blocks 0 * (BLOCK_SIZE : Int)) = some 0
    := by
    rw [blockSearch]
    apply scanFirst_zero (by norm_num [NUM_BLOCKS])
    simp only [decide_eq_true_eq, blockBound]
    constructor
    · exact le_refl _
    · have hring : ((st.inodes fi).blocks 0 + 1) * (BLOCK_SIZE : Int) =
          (st.inodes fi).blocks 0 * (BLOCK_SIZE : Int) + (BLOCK_SIZE : Int)
        := by ring
      rw [hring, hBS]
      omega
  obtain ⟨hlec, himg, hfrD, hfrF, hfrO, hfrI⟩ := writeLoop_inblock B fi b
    ((B : Int) + (st.inodes fi).blocks 0 * (BLOCK_SIZE : Int))
    ((st.inodes fi).blocks 0) 0 st 0 hbound
  obtain ⟨k, hk1, hk2, hp, hs, hfsz⟩ := writeLoop_facts B fi b
    ((B : Int) + (st.inodes fi).blocks 0 * (BLOCK_SIZE : Int))
    ((st.inodes fi).blocks 0) 0 st 0
  have hchain2 : parentChain
      (writeLoop B fi b
        ((B : Int) + (st.inodes fi).blocks 0 * (BLOCK_SIZE : Int))
        ((st.inodes fi).blocks 0) 0 st 0).st (NUM_INODES + 1)
      (fi : Int) = some L := by
    rw [parentChain_congr st _ hp]
    exact hchain
  obtain ⟨stC, hcu, hsz2, hout2⟩ := chainUpdate_facts (NUM_INODES + 1)
    (fi : Int)
    (((writeLoop B fi b
      ((B : Int) + (st.inodes fi).blocks 0 * (BLOCK_SIZE : Int))
      ((st.inodes fi).blocks 0) 0 st 0).maj : Nat) : Int)
    _ L hchain2 hnd
  obtain ⟨hprI, hprD, hprF, hprO, hprJ⟩ := chainUpdate_preserves
    (NUM_INODES + 1) (fi : Int) _ _ _ hcu
  have hblocks1 : ∀ m, (stC.inodes fi).blocks m = (st.inodes fi).blocks m
    := by
    intro m
    rw [(hprJ fi).2.2, (hfrI fi).2.2]
  have hperm1 : ∀ j, (stC.inodes j).permissions =
      (st.inodes j).permissions := by
    intro j
    rw [(hprJ j).2.1, (hfrI j).2.1]
  have himg1 : stC.image = writeImg st.image
      ((B : Int) + (st.inodes fi).blocks 0 * (BLOCK_SIZE : Int)) b := by
    rw [hprI, himg]
  -- step 1: the write itself
  have hw1 : write_file B st dk b =
      some (((writeLoop B fi b
        ((B : Int) + (st.inodes fi).blocks 0 * (BLOCK_SIZE : Int))
        ((st.inodes fi).blocks 0) 0 st 0).maj : Int),
        { stC with opened_file := (Function.update stC.opened_file dk.toNat
          ⟨(fi : Int), (writeLoop B fi b
            ((B : Int) + (st.inodes fi).blocks 0 * (BLOCK_SIZE : Int))
            ((st.inodes fi).blocks 0) 0 st 0).lecteur⟩) }) := by
    simp only [write_file, hfi, Int.toNat_natCast, hcur]
    rw [if_neg guard1]
    rw [if_neg (by simp [hw])]
    rw [if_neg (by simp [htype])]
    simp only [hsearch]
    simp only [hcu]
  -- step 2: the seek back to the start
  have hseek : seek_file B
      { stC with opened_file := (Function.update stC.opened_file dk.toNat
        ⟨(fi : Int), (writeLoop B fi b
          ((B : Int) + (st.inodes fi).blocks 0 * (BLOCK_SIZE : Int))
          ((st.inodes fi).blocks 0) 0 st 0).lecteur⟩) } dk 0 0 =
      some { stC with opened_file := (Function.update stC.opened_file
        dk.toNat ⟨(fi : Int),
          (B : Int) + (st.inodes fi).blocks 0 * (BLOCK_SIZE : Int)⟩) } := by
    rw [seek_file]
    rw [if_neg (by
      dsimp only
      rw [Function.update_same]
      exact guard1)]
    rw [if_neg (by omega : ¬ ((0 : Int) < 0))]
    rw [if_pos rfl]
    dsimp only
    rw [Function.update_same]
    dsimp only
    rw [Int.toNat_natCast]
    rw [hblocks1 0]
    have hc : ((0 : Int).toNat = 0 ∨ (st.inodes fi).blocks 0 = -1) :=
      Or.inl rfl
    rw [if_pos hc]
    rw [Function.update_idem]
  -- step 3: the read
  have hslot2 : ({ stC with opened_file := (Function.update stC.opened_file
      dk.toNat ⟨(fi : Int),
        (B : Int) + (st.inodes fi).blocks 0 * (BLOCK_SIZE : Int)⟩) }
        : Filesystem).opened_file dk.toNat =
      ⟨(fi : Int),
        (B : Int) + (st.inodes fi).blocks 0 * (BLOCK_SIZE : Int)⟩ := by
    dsimp only
    exact Function.update_same _ _ _
  have hsearch2 : blockSearch B
      { stC with opened_file := (Function.update stC.opened_file dk.toNat
        ⟨(fi : Int),
          (B : Int) + (st.inodes fi).blocks 0 * (BLOCK_SIZE : Int)⟩) } fi
      ((B : Int) + (st.inodes fi).blocks 0 * (BLOCK_SIZE : Int)) = some 0
    := by
    rw [blockSearch]
    apply scanFirst_zero (by norm_num [NUM_BLOCKS])
    show decide _ = true
    rw [decide_eq_true_eq]
    show (B : Int) + (stC.inodes fi).blocks 0 * (BLOCK_SIZE : Int) ≤ _ ∧
      _ < blockBound B ((stC.inodes fi).blocks 0)
    rw [hblocks1 0]
    constructor
    · exact le_refl _
    · rw [blockBound]
      have hring : ((st.inodes fi).blocks 0 + 1) * (BLOCK_SIZE : Int) =
          (st.inodes fi).blocks 0 * (BLOCK_SIZE : Int) + (BLOCK_SIZE : Int)
        := by ring
      rw [hring, hBS]
      omega
  have hreadloop := readLoop_inblock B fi
    { stC with opened_file := (Function.update stC.opened_file dk.toNat
      ⟨(fi : Int),
        (B : Int) + (st.inodes fi).blocks 0 * (BLOCK_SIZE : Int)⟩) }
    b.length ((B : Int) + (st.inodes fi).blocks 0 * (BLOCK_SIZE : Int))
    ((stC.inodes fi).blocks 0) 0 []
    (by rw [hblocks1 0]; exact hbound)
  have hread1 : read_file B
      { stC with opened_file := (Function.update stC.opened_file dk.toNat
        ⟨(fi : Int),
          (B : Int) + (st.inodes fi).blocks 0 * (BLOCK_SIZE : Int)⟩) } dk
      b.length =
      some ((List.range b.length).map (fun j : Nat =>
          writeImg st.image
            ((B : Int) + (st.inodes fi).blocks 0 * (BLOCK_SIZE : Int)) b
            (((B : Int) + (st.inodes fi).blocks 0 * (BLOCK_SIZE : Int)) +
              (j : Int)).toNat),
        { stC with opened_file := (Function.update stC.opened_file dk.toNat
          ⟨(fi : Int),
            ((B : Int) + (st.inodes fi).blocks 0 * (BLOCK_SIZE : Int)) +
              (b.length : Int)⟩) }) := by
    rw [read_file]
    rw [if_neg (by rw [hslot2]; exact guard1)]
    rw [hslot2]
    dsimp only
    rw [Int.toNat_natCast]
    rw [if_neg (by simp [(hprJ fi).1, (hfrI fi).1, htype])]
    rw [if_neg (by
      have hcongr := @has_permission_congr st
        { stC with opened_file :=
          (Function.update stC.opened_file dk.toNat
            ⟨(fi : Int),
              (B : Int) + (st.inodes fi).blocks 0 * (BLOCK_SIZE : Int)⟩) }
        (fi : Int) 'r' (fun j => hperm1 j)
      rw [hcongr, hread]
      simp)]
    simp only [hsearch2]
    simp only [hreadloop]
    simp only [List.reverse_nil, List.nil_append]
    rw [himg1]
    rw [Function.update_idem]
  -- step 4: the bytes read are the bytes written
  have hbuf : (List.range b.length).map (fun j : Nat =>
      writeImg st.image
        ((B : Int) + (st.inodes fi).blocks 0 * (BLOCK_SIZE : Int)) b
        (((B : Int) + (st.inodes fi).blocks 0 * (BLOCK_SIZE : Int)) +
          (j : Int)).toNat) = b := by
    apply List.ext_get (by simp)
    intro i h1 h2
    rw [List.get_map, List.get_range]
    exact writeImg_get b st.image _ i h2 hS0
  exact ⟨_, _, _, _, _, hw1, hseek, hread1, hbuf⟩

end FS

namespace FS

/-- Witness for C5 at a concrete input: on `wtFS` (file inode 1 open as
descriptor 0, cursor at the start of block 0), writing the two bytes `xy`,
seeking back to 0 and reading two bytes returns exactly `xy`. -/
theorem C5_roundtrip_within_first_block_witness :
    ∃ r st1 st2 buf st3,
      write_file 0 wtFS 0 ['x', 'y'] = some (r, st1) ∧
      seek_file 0 st1 0 0 0 = some st2 ∧
      read_file 0 st2 0 (['x', 'y'] : List Char).length =
        some (buf, st3) ∧
      buf = ['x', 'y'] :=
  C5_roundtrip_within_first_block 0 wtFS 0 ['x', 'y'] 1 [0]
    (by decide) (by decide) (by decide) (by decide) (by decide)
    (by decide) (by decide) (by decide) (by decide) (by decide)

end FS

namespace FS

/-- 514 bytes: 513 copies of `a` followed by one `b`.  One more byte than
one block's walk can carry. -/
def c5b : List Char := List.replicate 513 'a' ++ ['b']

end FS

namespace FS

/-- Splitting the write loop after an in-block prefix: the bytes of `b1`
all land within the active block's bound, and the loop then continues on
`b2` from the resulting cursor and state. -/
theorem writeLoop_append (B : Nat) (fi : Nat) (b1 b2 : List Char) :
    ∀ (lect nb : Int) (bi : Nat) (st : Filesystem) (maj : Nat),
      lect + b1.length ≤ blockBound B nb + 1 →
      writeLoop B fi (b1 ++ b2) lect nb bi st maj =
        writeLoop B fi b2 (lect + b1.length) nb bi
          (writeLoop B fi b1 lect nb bi st maj).st
          (writeLoop B fi b1 lect nb bi st maj).maj := by
  induction b1 with
  | nil =>
    intro lect nb bi st maj _
    simp [writeLoop]
  | cons c cs ih =>
    intro lect nb bi st maj hbound
    have hin : lect ≤ blockBound B nb := by
      simp only [List.length_cons] at hbound
      push_cast at hbound
      omega
    have hR : writeLoop B fi (c :: cs) lect nb bi st maj =
        writeLoop B fi cs (lect + 1) nb bi
          (writeByte fi st lect.toNat c).1
          (if (writeByte fi st lect.toNat c).2 then maj + 1 else maj) := by
      rw [writeLoop, if_pos hin]
    rw [hR, List.cons_append, writeLoop, if_pos hin]
    dsimp only
    rw [ih (lect + 1) nb bi (writeByte fi st lect.toNat c).1
      (if (writeByte fi st lect.toNat c).2 then maj + 1 else maj)
      (by simp only [List.length_cons] at hbound; push_cast at hbound ⊢; omega)]
    have harith : (lect + 1) + (cs.length : Int) =
        lect + ((c :: cs).length : Int) := by
      simp only [List.length_cons]
      push_cast
      ring
    rw [harith]

/-- Splitting the read loop after `n1` in-block steps: those steps copy the
image bytes at consecutive offsets onto the accumulator, and the loop then
continues with `n2` steps from the advanced cursor. -/
theorem readLoop_append (B : Nat) (fi : Nat) (st : Filesystem) :
    ∀ (n1 n2 : Nat) (lect nb : Int) (bi : Nat) (acc : List Char),
      lect + n1 ≤ blockBound B nb + 1 →
      readLoop B fi st (n1 + n2) lect nb bi acc =
        readLoop B fi st n2 (lect + n1) nb bi
          (((List.range n1).map
            (fun j : Nat => st.image (lect + (j : Int)).toNat)).reverse
            ++ acc) := by
  intro n1
  induction n1 with
  | zero =>
    intro n2 lect nb bi acc _
    simp
  | succ n ih =>
    intro n2 lect nb bi acc hbound
    have hin : lect ≤ blockBound B nb := by push_cast at hbound; omega
    have hstep : (n + 1) + n2 = (n + n2) + 1 := by omega
    rw [hstep, readLoop, if_pos hin]
    rw [ih n2 (lect + 1) nb bi (st.image lect.toNat :: acc)
      (by push_cast at hbound ⊢; omega)]
    have hc : (lect + 1) + (n : Int) = lect + ((n + 1 : Nat) : Int) := by
      push_cast
      ring
    rw [hc]
    have hacc : ((List.range (n + 1)).map
          (fun j : Nat => st.image (lect + (j : Int)).toNat)).reverse ++ acc
        = ((List.range n).map
          (fun j : Nat => st.image ((lect + 1) + (j : Int)).toNat)).reverse
          ++ (st.image lect.toNat :: acc) := by
      rw [List.range_succ_eq_map, List.map_cons, List.map_map,
        List.reverse_cons, List.append_assoc, List.singleton_append]
      have hmap : (List.range n).map
          ((fun j : Nat => st.image (lect + (j : Int)).toNat) ∘ Nat.succ) =
          (List.range n).map
            (fun j : Nat => st.image ((lect + 1) + (j : Int)).toNat) := by
        apply List.map_congr_left
        intro j _
        simp only [Function.comp_apply]
        congr 1
        omega
      rw [hmap]
      have h0 : st.image (lect + ((0 : Nat) : Int)).toNat =
          st.image lect.toNat := by
        congr 1
        omega
      rw [h0]
    rw [hacc]

end FS

namespace FS

set_option maxHeartbeats 2000000 in
/-- Counterexample to C5 as stated: on the freshly created file of `wtFS`
(block 1 still free, so blocks are available), writing the 514 bytes of
`c5b` (513 copies of `a` and one `b`), seeking back to 0 and reading 514
bytes succeeds at every step but returns a buffer differing from `c5b` at
position 512.  The write loop's inclusive block bound makes the 513th byte
land one past block 0; the 514th byte, placed at the start of the freshly
allocated physically adjacent block 1, overwrites it, and the read walk
visits that image byte twice. -/
theorem C5_roundtrip_claim_false :
    ∃ r st1 st2 buf st3,
      write_file 0 wtFS 0 c5b = some (r, st1) ∧
      seek_file 0 st1 0 0 0 = some st2 ∧
      read_file 0 st2 0 c5b.length = some (buf, st3) ∧
      buf ≠ c5b := by
  -- the in-block prefix: 513 bytes from cursor 0 inside block 0
  have hb1len : (List.replicate 513 'a').length = 513 := by simp
  have hbound1 : (0 : Int) + ((List.replicate 513 'a').length : Int) ≤
      blockBound 0 0 + 1 := by
    rw [hb1len]
    norm_num [blockBound, BLOCK_SIZE]
  generalize hW1 : writeLoop 0 1 (List.replicate 513 'a') 0 0 0 wtFS 0 = W1
  have hinb := writeLoop_inblock 0 1 (List.replicate 513 'a') 0 0 0 wtFS 0
    hbound1
  have hfacts := writeLoop_facts 0 1 (List.replicate 513 'a') 0 0 0 wtFS 0
  rw [hW1] at hinb hfacts
  obtain ⟨hW1lec, hW1img, hW1dirs, hW1fb, hW1op, hW1in⟩ := hinb
  obtain ⟨k1, hW1maj, -, hW1sp⟩ := hfacts
  -- the allocation of the physically adjacent block 1
  have hfbfun : W1.st.free_blocks = wtFS.free_blocks := hW1fb
  have hallocScan : scanFirst (fun i => W1.st.free_blocks i == 0) 0
      NUM_BLOCKS = some 1 := by
    rw [hfbfun]
    decide
  have halloc : allocate_block W1.st =
      ((1 : Int),
        { W1.st with free_blocks := Function.update W1.st.free_blocks 1 1 })
      := by
    rw [allocate_block]
    simp only [hallocScan]
    norm_num
  have hnbW1 : (W1.st.inodes 1).blocks = (wtFS.inodes 1).blocks :=
    (hW1in 1).2.2
  have hnext : nextBlock 1 W1.st 1 =
      ((1 : Int),
        setInode
          { W1.st with free_blocks := Function.update W1.st.free_blocks 1 1 }
          1
          { W1.st.inodes 1 with
              blocks := Function.update (W1.st.inodes 1).blocks 1 1 }) := by
    rw [nextBlock]
    dsimp only
    rw [if_pos (by rw [hnbW1]; decide :
      (W1.st.inodes 1).blocks 1 = -1)]
    simp only [halloc]
  generalize hStB : setInode
      { W1.st with free_blocks := Function.update W1.st.free_blocks 1 1 } 1
      { W1.st.inodes 1 with
          blocks := Function.update (W1.st.inodes 1).blocks 1 1 } = stB
  rw [hStB] at hnext
  have himgB : stB.image = W1.st.image := by
    rw [← hStB]
    rfl
  have hinodesB : stB.inodes = Function.update W1.st.inodes 1
      { W1.st.inodes 1 with
          blocks := Function.update (W1.st.inodes 1).blocks 1 1 } := by
    rw [← hStB]
    rfl
  -- the byte that crosses the block bound overwrites the 513th byte
  have hprobe : stB.image 512 = 'a' := by
    rw [himgB, hW1img]
    have hg := writeImg_get (List.replicate 513 'a') wtFS.image 0 512
      (by simp) (by norm_num)
    rw [show ((0 : Int) + ((512 : Nat) : Int)).toNat = 512 from by decide]
      at hg
    rw [hg]
    exact List.get_replicate _ _
  have hwb : writeByte 1 stB 512 'b' =
      ({ stB with image := Function.update stB.image 512 'b' }, false) := by
    rw [writeByte]
    dsimp only
    rw [if_neg (by rw [hprobe]; decide : ¬ stB.image 512 = nulChar)]
    refine Prod.ext rfl ?_
    show (stB.image 512 == nulChar) = false
    rw [hprobe]
    decide
  generalize hStW :
    ({ stB with image := Function.update stB.image 512 'b' } : Filesystem)
      = stW
  rw [hStW] at hwb
  have hWimg : stW.image = Function.update stB.image 512 'b' := by
    rw [← hStW]
  have hWinodes : stW.inodes = stB.inodes := by rw [← hStW]
  have hW2 : writeLoop 0 1 ['b'] 513 0 0 W1.st W1.maj =
      ⟨W1.maj, 513, stW⟩ := by
    rw [writeLoop]
    rw [if_neg (by norm_num [blockBound, BLOCK_SIZE] :
      ¬ ((513 : Int) ≤ blockBound 0 0))]
    dsimp only
    simp only [Nat.zero_add]
    rw [hnext]
    dsimp only
    rw [if_neg (by decide : ¬ ((1 : Int) = -1))]
    rw [show ((0 : Nat) : Int) + (1 : Int) * ((BLOCK_SIZE : Nat) : Int) = 512
      from by norm_num [BLOCK_SIZE]]
    rw [show ((512 : Int)).toNat = 512 from rfl]
    rw [hwb]
    dsimp only
    rw [writeLoop]
    simp
  have hOut : writeLoop 0 1 c5b 0 0 0 wtFS 0 = ⟨W1.maj, 513, stW⟩ := by
    simp only [c5b]
    rw [writeLoop_append 0 1 (List.replicate 513 'a') ['b'] 0 0 0 wtFS 0
      hbound1]
    rw [hW1, hb1len]
    rw [show (0 : Int) + ((513 : Nat) : Int) = 513 from by norm_num]
    exact hW2
  -- the inode table after the write loop
  have hWpar : ∀ j, (stW.inodes j).inode_rep_parent =
      (wtFS.inodes j).inode_rep_parent := by
    intro j
    rw [hWinodes, hinodesB]
    rcases eq_or_ne j 1 with rfl | hj
    · rw [Function.update_same]
      exact hW1sp.1 1
    · rw [Function.update_noteq hj]
      exact hW1sp.1 j
  have hWtype : (stW.inodes 1).type = 1 := by
    rw [hWinodes, hinodesB, Function.update_same]
    exact ((hW1in 1).1).trans (by decide)
  have hWperm : ∀ j, (stW.inodes j).permissions =
      (wtFS.inodes j).permissions := by
    intro j
    rw [hWinodes, hinodesB]
    rcases eq_or_ne j 1 with rfl | hj
    · rw [Function.update_same]
      exact (hW1in 1).2.1
    · rw [Function.update_noteq hj]
      exact (hW1in j).2.1
  have hWblocks0 : (stW.inodes 1).blocks 0 = 0 := by
    rw [hWinodes, hinodesB, Function.update_same]
    show Function.update (W1.st.inodes 1).blocks 1 1 0 = 0
    rw [Function.update_noteq (by decide), hnbW1]
    decide
  have hWblocks1 : (stW.inodes 1).blocks 1 = 1 := by
    rw [hWinodes, hinodesB, Function.update_same]
    show Function.update (W1.st.inodes 1).blocks 1 1 1 = 1
    rw [Function.update_same]
  -- the parent-chain pass
  have hchainW : parentChain stW (NUM_INODES + 1) 1 = some [0] := by
    rw [parentChain_congr wtFS stW hWpar]
    decide
  obtain ⟨stC, hcu, hszC, houtC⟩ := chainUpdate_facts (NUM_INODES + 1) 1
    ((W1.maj : Nat) : Int) stW [0] hchainW (by simp)
  obtain ⟨hCimg, hCdirs, hCfb, hCop, hCin⟩ := chainUpdate_preserves
    (NUM_INODES + 1) 1 ((W1.maj : Nat) : Int) stW stC hcu
  have hC1 : stC.inodes 1 = stW.inodes 1 := houtC 1 (by simp)
  have hCblocks0 : (stC.inodes 1).blocks 0 = 0 := by
    rw [hC1]
    exact hWblocks0
  have hCblocks1 : (stC.inodes 1).blocks 1 = 1 := by
    rw [hC1]
    exact hWblocks1
  have hCtype : (stC.inodes 1).type = 1 := by
    rw [hC1]
    exact hWtype
  -- the full write call, stated over an abstract state so that no tactic
  -- evaluates the concrete loop
  have hgen : ∀ st : Filesystem,
      (st.opened_file 0).inode = 1 →
      (st.opened_file 0).tete_lecture = 0 →
      has_permission st 1 'w' = true →
      (st.inodes 1).type = 1 →
      blockSearch 0 st 1 0 = some 0 →
      (st.inodes 1).blocks 0 = 0 →
      writeLoop 0 1 c5b 0 0 0 st 0 = ⟨W1.maj, 513, stW⟩ →
      write_file 0 st 0 c5b =
        some ((W1.maj : Int),
          { stC with opened_file :=
              Function.update stC.opened_file 0 ⟨1, 513⟩ }) := by
    intro st h1 h2 h3 h4 h5 h6 h7
    simp only [write_file, h1, h2, Int.toNat_one, Int.toNat_zero,
      Nat.cast_one]
    rw [if_neg (by decide)]
    rw [if_neg (by simp [h3])]
    rw [if_neg (by simp [h4])]
    simp only [h5]
    rw [h6, h7]
    dsimp only
    simp only [hcu]
  have hWrite : write_file 0 wtFS 0 c5b =
      some ((W1.maj : Int),
        { stC with opened_file :=
            Function.update stC.opened_file 0 ⟨1, 513⟩ }) :=
    hgen wtFS (by decide) (by decide) (by decide) (by decide) (by decide)
      (by decide) hOut
  -- the seek back to offset 0
  have hSeek : seek_file 0
      ({ stC with opened_file :=
          Function.update stC.opened_file 0 ⟨1, 513⟩ } : Filesystem)
      0 0 0 =
      some { stC with opened_file :=
          Function.update stC.opened_file 0 ⟨1, 0⟩ } := by
    rw [seek_file]
    rw [if_neg (by
      dsimp only
      simp only [Int.toNat_zero]
      rw [Function.update_same]
      decide)]
    rw [if_neg (by norm_num : ¬ ((0 : Int) < 0))]
    rw [if_pos rfl]
    dsimp only
    simp only [Int.toNat_zero]
    rw [Function.update_same]
    dsimp only
    simp only [Int.toNat_one]
    rw [hCblocks0]
    have hcc : (True ∨ (0 : Int) = -1) := Or.inl trivial
    rw [if_pos hcc]
    rw [Function.update_idem]
    norm_num [BLOCK_SIZE]
  -- the read of 514 bytes
  have hpermS : ∀ j,
      (({ stC with opened_file :=
          Function.update stC.opened_file 0 ⟨1, 0⟩ } : Filesystem).inodes
        j).permissions = (wtFS.inodes j).permissions :=
    fun j => ((hCin j).2.1).trans (hWperm j)
  have hprS : has_permission
      ({ stC with opened_file :=
          Function.update stC.opened_file 0 ⟨1, 0⟩ } : Filesystem)
      1 'r' = true := by
    rw [has_permission_congr 1 'r' hpermS]
    decide
  have hbsS : blockSearch 0
      ({ stC with opened_file :=
          Function.update stC.opened_file 0 ⟨1, 0⟩ } : Filesystem)
      1 0 = some 0 := by
    rw [blockSearch]
    apply scanFirst_zero (by norm_num [NUM_BLOCKS])
    show decide _ = true
    rw [decide_eq_true_eq]
    show ((0 : Nat) : Int) + (stC.inodes 1).blocks 0 * ((BLOCK_SIZE : Nat) : Int)
        ≤ 0 ∧ (0 : Int) < blockBound 0 ((stC.inodes 1).blocks 0)
    rw [hCblocks0]
    norm_num [blockBound, BLOCK_SIZE]
  have hbound513 : (0 : Int) + ((513 : Nat) : Int) ≤ blockBound 0 0 + 1 := by
    norm_num [blockBound, BLOCK_SIZE]
  have hRL : readLoop 0 1
      ({ stC with opened_file :=
          Function.update stC.opened_file 0 ⟨1, 0⟩ } : Filesystem)
      514 0 0 0 [] =
      (((List.range 513).map
          (fun j : Nat =>
            ({ stC with opened_file :=
                Function.update stC.opened_file 0 ⟨1, 0⟩ }
              : Filesystem).image ((0 : Int) + (j : Int)).toNat))
        ++ [({ stC with opened_file :=
            Function.update stC.opened_file 0 ⟨1, 0⟩ }
          : Filesystem).image 512], 513) := by
    rw [show (514 : Nat) = 513 + 1 from rfl]
    rw [readLoop_append 0 1
      ({ stC with opened_file :=
          Function.update stC.opened_file 0 ⟨1, 0⟩ } : Filesystem)
      513 1 0 0 0 [] hbound513]
    rw [List.append_nil]
    rw [show (0 : Int) + ((513 : Nat) : Int) = 513 from by norm_num]
    rw [readLoop]
    rw [if_neg (by norm_num [blockBound, BLOCK_SIZE] :
      ¬ ((513 : Int) ≤ blockBound 0 0))]
    dsimp only
    simp only [Nat.zero_add]
    rw [hCblocks1]
    rw [if_neg (by decide : ¬ ((1 : Int) = -1))]
    rw [show ((0 : Nat) : Int) + (1 : Int) * ((BLOCK_SIZE : Nat) : Int) = 512
      from by norm_num [BLOCK_SIZE]]
    rw [readLoop]
    rw [List.reverse_cons, List.reverse_reverse]
    norm_num
    rfl
  have hRead : read_file 0
      ({ stC with opened_file :=
          Function.update stC.opened_file 0 ⟨1, 0⟩ } : Filesystem)
      0 514 =
      some ((((List.range 513).map
          (fun j : Nat =>
            ({ stC with opened_file :=
                Function.update stC.opened_file 0 ⟨1, 0⟩ }
              : Filesystem).image ((0 : Int) + (j : Int)).toNat))
        ++ [({ stC with opened_file :=
            Function.update stC.opened_file 0 ⟨1, 0⟩ }
          : Filesystem).image 512]),
        { stC with opened_file :=
            Function.update stC.opened_file 0 ⟨1, 513⟩ }) := by
    rw [read_file]
    rw [if_neg (by
      dsimp only
      simp only [Int.toNat_zero]
      rw [Function.update_same]
      decide)]
    dsimp only
    simp only [Int.toNat_zero]
    rw [Function.update_same]
    dsimp only
    simp only [Int.toNat_one]
    rw [if_neg (by simp [hCtype])]
    rw [if_neg (by simp [hprS])]
    simp only [hbsS]
    rw [hCblocks0]
    simp only [hRL]
    rw [Function.update_idem]
  have hlen514 : c5b.length = 514 := by simp [c5b]
  have hb512 : ((((List.range 513).map
      (fun j : Nat =>
        ({ stC with opened_file :=
            Function.update stC.opened_file 0 ⟨1, 0⟩ }
          : Filesystem).image ((0 : Int) + (j : Int)).toNat))
      ++ [({ stC with opened_file :=
          Function.update stC.opened_file 0 ⟨1, 0⟩ }
        : Filesystem).image 512]))[512]? = some 'b' := by
    rw [List.getElem?_append, if_pos (by simp)]
    rw [List.getElem?_map, List.getElem?_range (by norm_num)]
    show some (stC.image 512) = some 'b'
    rw [hCimg, hWimg]
    rw [Function.update_same]
  have hc512 : c5b[512]? = some 'a' := by
    simp only [c5b]
    rw [List.getElem?_append, if_pos (by simp)]
    rw [List.getElem?_replicate]
    norm_num
  have hneq : ((((List.range 513).map
      (fun j : Nat =>
        ({ stC with opened_file :=
            Function.update stC.opened_file 0 ⟨1, 0⟩ }
          : Filesystem).image ((0 : Int) + (j : Int)).toNat))
      ++ [({ stC with opened_file :=
          Function.update stC.opened_file 0 ⟨1, 0⟩ }
        : Filesystem).image 512])) ≠ c5b := by
    intro heq
    rw [heq] at hb512
    have hcontr := hb512.symm.trans hc512
    simp at hcontr
  refine ⟨((W1.maj : Nat) : Int),
    { stC with opened_file := Function.update stC.opened_file 0 ⟨1, 513⟩ },
    { stC with opened_file := Function.update stC.opened_file 0 ⟨1, 0⟩ },
    (((List.range 513).map
      (fun j : Nat =>
        ({ stC with opened_file :=
            Function.update stC.opened_file 0 ⟨1, 0⟩ }
          : Filesystem).image ((0 : Int) + (j : Int)).toNat))
      ++ [({ stC with opened_file :=
          Function.update stC.opened_file 0 ⟨1, 0⟩ }
        : Filesystem).image 512]),
    { stC with opened_file := Function.update stC.opened_file 0 ⟨1, 513⟩ },
    hWrite, hSeek, ?_, hneq⟩
  rw [hlen514]
  exact hRead

end FS
